import Mathlib

/-!
Verification of the shared-state coordination protocol of the `ai-agents-learning`
repository, embedded shallowly in Lean.

The embedding mirrors `src/shared/agent_utils.py` (class `AgentCommunication`),
`src/run.py`, the agent scripts under `src/agents/`, and
`src/poc4_conversational_agent/token_tracker.py`.

JSON documents are modelled by the inductive type `Json` below, with numbers as
integers (the protocol documents carry only integers; floating point is outside
the embedding).  Python dictionaries are association lists in insertion order:
updating an existing key keeps its position, a new key is appended, exactly as
CPython dicts behave.  Operations that can raise (`KeyError`, `TypeError`,
`json.JSONDecodeError`, `TimeoutError`) return `Option`/`Except` values.
-/

namespace AgentsLearning

/-- JSON values as stored in the shared communication document.  Numbers are
modelled as integers; the workflow documents written by the protocol contain
only integer numbers. -/
inductive Json where
  | null : Json
  | bool (b : Bool) : Json
  | num (n : Int) : Json
  | str (s : String) : Json
  | arr (items : List Json) : Json
  | obj (members : List (String × Json)) : Json
  deriving Repr

/-- Induction over `Json` giving hypotheses for every element of an array and
every member value of an object (the recursor a nested inductive needs). -/
theorem json_ind (P : Json → Prop)
    (h0 : P .null) (h1 : ∀ b, P (.bool b)) (h2 : ∀ n, P (.num n)) (h3 : ∀ s, P (.str s))
    (h4 : ∀ xs, (∀ x ∈ xs, P x) → P (.arr xs))
    (h5 : ∀ ms, (∀ m ∈ ms, P m.2) → P (.obj ms)) :
    ∀ d, P d
  | .null => h0
  | .bool b => h1 b
  | .num n => h2 n
  | .str s => h3 s
  | .arr xs => h4 xs (fun x hx => json_ind P h0 h1 h2 h3 h4 h5 x)
  | .obj ms => h5 ms (fun m hm => json_ind P h0 h1 h2 h3 h4 h5 m.2)
termination_by d => sizeOf d
decreasing_by
  · have hlt := List.sizeOf_lt_of_mem hx
    simp only [Json.arr.sizeOf_spec]
    omega
  · have hlt := List.sizeOf_lt_of_mem hm
    obtain ⟨a, b⟩ := m
    simp only [Json.obj.sizeOf_spec, Prod.mk.sizeOf_spec] at *
    omega

/-- Lookup in a Python dict modelled as an association list (`d[k]` read,
`none` is a `KeyError`). -/
def alGet {α : Type} : List (String × α) → String → Option α
  | [], _ => none
  | (k', v) :: rest, k => if k' = k then some v else alGet rest k

/-- Assignment `d[k] = v` on a Python dict: an existing key keeps its
insertion position, a new key is appended at the end. -/
def alSet {α : Type} : List (String × α) → String → α → List (String × α)
  | [], k, v => [(k, v)]
  | (k', v') :: rest, k, v =>
    if k' = k then (k', v) :: rest else (k', v') :: alSet rest k v

theorem alGet_alSet_self {α : Type} (l : List (String × α)) (k : String) (v : α) :
    alGet (alSet l k v) k = some v := by
  induction l with
  | nil => simp [alGet, alSet]
  | cons hd tl ih =>
    obtain ⟨k', v'⟩ := hd
    by_cases h : k' = k <;> simp [alGet, alSet, h, ih]

theorem alGet_alSet_other {α : Type} (l : List (String × α)) (k k' : String) (v : α)
    (h : k' ≠ k) : alGet (alSet l k v) k' = alGet l k' := by
  have hk : ¬ (k = k') := fun hh => h (Eq.symm hh)
  induction l with
  | nil => simp [alGet, alSet, hk]
  | cons hd tl ih =>
    obtain ⟨k0, v0⟩ := hd
    by_cases h0 : k0 = k
    · subst h0
      simp [alGet, alSet, hk]
    · by_cases h1 : k0 = k' <;> simp [alGet, alSet, h0, h1, ih, h]

/-- Reading `doc[k]` when `doc` must be a dict (`none` models `KeyError` on a
missing key and `TypeError` on a non-dict value). -/
def dictGet : Json → String → Option Json
  | .obj l, k => alGet l k
  | _, _ => none

/-- Member access `data["agents"][agent][fld]`, used to observe one field of
one agent record in a workflow document. -/
def agentField (doc : Json) (agent fld : String) : Option Json :=
  match dictGet doc "agents" with
  | some ags =>
    match dictGet ags agent with
    | some rec0 => dictGet rec0 fld
    | none => none
  | none => none

/-- Model of `if k not in d: d[k] = {}` on a dict body. -/
def ensureKeyObj (l : List (String × Json)) (k : String) : List (String × Json) :=
  if (alGet l k).isSome then l else alSet l k (.obj [])

/-! ## The coordination-store operations of `AgentCommunication`

`read_json`/`write_json` serialize through the on-disk file; in the sequential
setting of each claim the store content is the document itself, and the
serialize-then-parse round trip is proved separately (claim C4).  Each
read-modify-write method below maps the document it read to the document it
writes back. -/

/-- Model of `AgentCommunication.update_status` (src/shared/agent_utils.py,
lines 43-56): set the calling agent's `status`, set `message` when the
argument is truthy (Python `if message:` — `None` and the empty string are
both falsy), and stamp `last_update`.  `none` models the `KeyError`/`TypeError`
raised when the document lacks the dict path `data["agents"][agent]`.
The wall-clock reading `time.strftime(...)` is passed in as `now`. -/
def update_status (agent status : String) (message : Option String) (now : String)
    (doc : Json) : Option Json :=
  match doc with
  | .obj dl =>
    match alGet dl "agents" with
    | some (.obj ags) =>
      match alGet ags agent with
      | some (.obj rec0) =>
        let rec1 := alSet rec0 "status" (.str status)
        let rec2 :=
          match message with
          | some m => if m = "" then rec1 else alSet rec1 "message" (.str m)
          | none => rec1
        let rec3 := alSet rec2 "last_update" (.str now)
        some (.obj (alSet dl "agents" (.obj (alSet ags agent (.obj rec3)))))
      | _ => none
    | _ => none
  | _ => none

/-- The message entry built by `send_message_to_agent`: literally
`{"content": ..., "from": ..., "timestamp": ..., "read": False}`. -/
def msgEntry (content sender ts : String) : Json :=
  .obj [("content", .str content), ("from", .str sender),
        ("timestamp", .str ts), ("read", .bool false)]

/-- Model of `AgentCommunication.send_message_to_agent` (lines 72-92): create
the `messages` section and the per-recipient section when missing, then store
the entry under `message_key`, overwriting any previous entry at that key.
`none` models the `TypeError` raised when an existing `messages` section or
recipient section is not a dict. -/
def send_message_to_agent (sender target key content ts : String) (doc : Json) :
    Option Json :=
  match doc with
  | .obj dl =>
    let dl1 := ensureKeyObj dl "messages"
    match alGet dl1 "messages" with
    | some (.obj ms) =>
      let ms1 := ensureKeyObj ms target
      match alGet ms1 target with
      | some (.obj tms) =>
        some (.obj (alSet dl1 "messages"
          (.obj (alSet ms1 target (.obj (alSet tms key (msgEntry content sender ts)))))))
      | _ => none
    | _ => none
  | _ => none

/-- The loop `for key in messages: messages[key]["read"] = True` of
`get_messages`: set the `read` flag of every entry; `none` models the
`TypeError` raised when an entry is not a dict. -/
def markAllRead : List (String × Json) → Option (List (String × Json))
  | [] => some []
  | (k, .obj e) :: rest =>
    match markAllRead rest with
    | some r => some ((k, .obj (alSet e "read" (.bool true))) :: r)
    | none => none
  | _ => none

/-- Model of `AgentCommunication.get_messages` (lines 94-109).  Returns the
messages directed to `agent`, the document the store holds afterwards, and
whether a `write_json` was performed.  When the `messages` section is absent
or has no entry for the agent the method returns `{}` without writing.  When
`mark_as_read` is set and the inbox is non-empty, the entries are marked read
in place and written back; the returned mapping is the same (mutated) dict
object, so it already carries `read: true`. -/
def get_messages (agent : String) (mark_as_read : Bool) (doc : Json) :
    Option (Json × Json × Bool) :=
  match doc with
  | .obj dl =>
    match alGet dl "messages" with
    | none => some (.obj [], doc, false)
    | some (.obj ms) =>
      match alGet ms agent with
      | none => some (.obj [], doc, false)
      | some (.obj tms) =>
        if mark_as_read && !tms.isEmpty then
          match markAllRead tms with
          | some tms1 =>
            some (.obj tms1,
              .obj (alSet dl "messages" (.obj (alSet ms agent (.obj tms1)))), true)
          | none => none
        else
          some (.obj tms, doc, false)
      | some _ => none
    | some _ => none
  | _ => none

/-- Model of `AgentCommunication.increment_iteration` (lines 111-118):
`data["iterations"] += 1`, write back, return the new counter. -/
def increment_iteration (doc : Json) : Option (Json × Int) :=
  match doc with
  | .obj dl =>
    match alGet dl "iterations" with
    | some (.num n) => some (.obj (alSet dl "iterations" (.num (n + 1))), n + 1)
    | _ => none
  | _ => none

/-- The `read` flag of the message stored for recipient `r` under key `k`:
`data["messages"][r][k]["read"]`. -/
def readFlag (doc : Json) (r k : String) : Option Json :=
  match dictGet doc "messages" with
  | some ms =>
    match dictGet ms r with
    | some tm =>
      match dictGet tm k with
      | some e => dictGet e "read"
      | none => none
    | none => none
  | none => none

/-- The initial document written by `src/run.py` (lines 45-55) before the
agents are launched. -/
def initial_data (task : String) : Json :=
  .obj [("task", .str task), ("workflow_state", .str "initialized"),
        ("agents", .obj
          [("product_owner", .obj [("status", .str "pending")]),
           ("staff_engineer", .obj [("status", .str "pending")]),
           ("engineering_manager", .obj [("status", .str "pending")])]),
        ("iterations", .num 0), ("max_iterations", .num 3)]

/-! ## The polling wait with exponential backoff -/

/-- The Python exceptions the protocol code can raise. -/
inductive PyErr where
  | keyError (k : String) : PyErr
  | typeError : PyErr
  | timeoutError (msg : String) : PyErr
  deriving Repr, DecidableEq

/-- Message text of an exception as produced by `str(e)`; only
`TimeoutError` messages are observed by the claims. -/
def pyErrStr : PyErr → String
  | .timeoutError m => m
  | .keyError k => k
  | .typeError => ""

/-- Loop body of `AgentCommunication.wait_with_backoff` (lines 120-138),
by recursion on the remaining attempts `max_attempts - attempts`.  `idx` is
the current attempt number, `w` the current base delay `wait_time`.  The
condition function can raise (it reads the shared document).  The result
carries the Boolean outcome, the number of condition evaluations performed
and the list of sleep durations `wait_time * jitter` in order; `jitter idx`
models the draw `random.uniform(0.8, 1.2)` of attempt `idx`. -/
def waitLoop (cond : Nat → Except PyErr Bool) (jitter : Nat → ℚ) :
    Nat → Nat → ℚ → Except PyErr (Bool × Nat × List ℚ)
  | 0, _, _ => .ok (false, 0, [])
  | r + 1, idx, w =>
    match cond idx with
    | .error e => .error e
    | .ok true => .ok (true, 1, [])
    | .ok false =>
      match waitLoop cond jitter r (idx + 1) (w * 2) with
      | .error e => .error e
      | .ok (b, n, ss) => .ok (b, n + 1, w * jitter idx :: ss)

/-- Model of `AgentCommunication.wait_with_backoff`: evaluate `cond` up to
`max_attempts` times, sleeping `wait_time * jitter` between attempts and
doubling `wait_time` each retry; returns `True` as soon as the condition
holds and `False` when the attempt budget is exhausted. -/
def wait_with_backoff (cond : Nat → Except PyErr Bool) (max_attempts : Nat)
    (initial_wait : ℚ) (jitter : Nat → ℚ) : Except PyErr (Bool × Nat × List ℚ) :=
  waitLoop cond jitter max_attempts 0 initial_wait

/-- The predicate `analysis_ready` of `StaffEngineerAgent.wait_for_po_analysis`
(src/agents/staff_engineer.py, lines 34-38): the Product Owner status is
`completed` and the key `product_owner_analysis` is present. -/
def analysis_ready (doc : Json) : Except PyErr Bool :=
  match doc with
  | .obj dl =>
    match alGet dl "agents" with
    | some (.obj ags) =>
      match alGet ags "product_owner" with
      | some (.obj po) =>
        match alGet po "status" with
        | some st =>
          .ok ((match st with | .str s => s == "completed" | _ => false)
               && (alGet dl "product_owner_analysis").isSome)
        | none => .error (.keyError "status")
      | some _ => .error .typeError
      | none => .error (.keyError "product_owner")
    | some _ => .error .typeError
    | none => .error (.keyError "agents")
  | _ => .error .typeError

/-- Model of `StaffEngineerAgent.wait_for_po_analysis` (lines 32-50).  The
document read at the `k`-th polling attempt is `env k`; after a successful
wait the next read (for `get_messages`) observes `env n` where `n` attempts
were used.  When `wait_with_backoff` returns `False` the method raises
`TimeoutError("Timeout waiting for Product Owner analysis")`. -/
def wait_for_po_analysis (env : Nat → Json) (jitter : Nat → ℚ) :
    Except PyErr (Json × Json) :=
  match wait_with_backoff (fun k => analysis_ready (env k)) 5 1 jitter with
  | .error e => .error e
  | .ok (false, _, _) =>
    .error (.timeoutError "Timeout waiting for Product Owner analysis")
  | .ok (true, n, _) =>
    match get_messages "staff_engineer" true (env n) with
    | some (msgs, doc1, _) => .ok (msgs, doc1)
    | none => .error .typeError

/-- Model of `StaffEngineerAgent.run` (lines 222-330) up to and including its
error handling.  The store is `doc0` when the agent starts; the orchestrator
launches agents sequentially, so no other process writes while this one runs
and every read observes the agent's own last write.  The success path after
the wait performs the LLM-backed analysis, which is outside the embedding and
supplied as `rest`; the claims exercise the timeout path, where `run` catches
the exception, sets its own status to `error` with the message, and re-raises
(lines 327-330). -/
def staff_engineer_run (rest : Json → Json × Except PyErr Unit)
    (doc0 : Json) (now : String) (jitter : Nat → ℚ) : Json × Except PyErr Unit :=
  match update_status "staff_engineer" "initializing" none now doc0 with
  | none => (doc0, .error (.keyError "staff_engineer"))
  | some doc1 =>
    match wait_for_po_analysis (fun _ => doc1) jitter with
    | .ok (_, doc2) => rest doc2
    | .error e =>
      match update_status "staff_engineer" "error" (some (pyErrStr e)) now doc1 with
      | none => (doc1, .error (.keyError "staff_engineer"))
      | some doc2 => (doc2, .error e)

/-- The driver loop of `src/run.py` (lines 79-85): run each agent script in
order; when one raises, log and continue with the next agent anyway.  Each
step maps the store to the new store plus its outcome; the returned list
records one outcome flag per script. -/
def orchestrate (steps : List (Json → Json × Except PyErr Unit)) (doc : Json) :
    Json × List Bool :=
  match steps with
  | [] => (doc, [])
  | s :: restSteps =>
    let r1 := s doc
    let r2 := orchestrate restSteps r1.1
    (r2.1, (match r1.2 with | .ok _ => true | .error _ => false) :: r2.2)

/-! ## Behaviour of the wait loop when the condition never holds -/

/-- When the condition always evaluates to `False`, the loop runs through all
remaining attempts, evaluating the condition once per attempt and sleeping
`wait_time * jitter` with the base delay doubling each retry. -/
theorem waitLoop_never (cond : Nat → Except PyErr Bool) (jitter : Nat → ℚ)
    (h : ∀ k, cond k = .ok false) :
    ∀ (n idx : Nat) (w : ℚ),
      waitLoop cond jitter n idx w =
        .ok (false, n, (List.range n).map fun i => w * 2 ^ i * jitter (idx + i)) := by
  intro n
  induction n with
  | zero => intro idx w; simp [waitLoop]
  | succ r ih =>
    intro idx w
    rw [waitLoop, h idx, ih (idx + 1) (w * 2)]
    simp only [List.range_succ_eq_map, List.map_cons, List.map_map]
    have hmap : List.map (fun i => w * 2 * 2 ^ i * jitter (idx + 1 + i)) (List.range r) =
        List.map ((fun i => w * 2 ^ i * jitter (idx + i)) ∘ Nat.succ) (List.range r) := by
      apply List.map_congr_left
      intro i _
      have harg : idx + 1 + i = idx + (i + 1) := by omega
      simp only [Function.comp_apply, Nat.succ_eq_add_one, harg]
      ring
    rw [hmap]
    simp only [pow_zero, mul_one, Nat.add_zero]

/-- C5: when the condition never becomes true, `wait_with_backoff(cond,
max_attempts=N, initial_wait=t)` evaluates the condition exactly `N` times and
terminates with `False`; the `k`-th sleep is `t * 2^k * jitter k` — each base
delay doubles the previous one, scaled by a jitter factor in `[0.8, 1.2]` —
and the sleep durations are non-decreasing across attempts. -/
theorem wait_backoff_exhausts_budget_c5 (cond : Nat → Except PyErr Bool)
    (jitter : Nat → ℚ) (N : Nat) (t : ℚ)
    (hnever : ∀ k, cond k = .ok false) (ht : 0 ≤ t)
    (hj : ∀ k, (4 / 5 : ℚ) ≤ jitter k ∧ jitter k ≤ 6 / 5) :
    wait_with_backoff cond N t jitter =
      .ok (false, N, (List.range N).map fun i => t * 2 ^ i * jitter i) ∧
    ((List.range N).map fun i => t * 2 ^ i * jitter i).Chain' (· ≤ ·) := by
  constructor
  · have hw := waitLoop_never cond jitter hnever N 0 t
    simpa [wait_with_backoff] using hw
  · rw [List.chain'_map]
    match N with
    | 0 => simp
    | Nat.succ m =>
      rw [List.chain'_range_succ]
      intro i _
      have h1 : jitter i ≤ 6 / 5 := (hj i).2
      have h2 : (4 / 5 : ℚ) ≤ jitter (i + 1) := (hj (i + 1)).1
      have hp : (0 : ℚ) ≤ t * 2 ^ i := by positivity
      have hstep : jitter i ≤ 2 * jitter (i + 1) := by linarith
      calc t * 2 ^ i * jitter i ≤ t * 2 ^ i * (2 * jitter (i + 1)) :=
            mul_le_mul_of_nonneg_left hstep hp
        _ = t * 2 ^ (i + 1) * jitter (i + 1) := by ring

/-- Witness for C5 at `N = 3`, `t = 1`, unit jitter: the wait returns `False`
after exactly 3 condition evaluations, with sleeps `[1, 2, 4]`. -/
theorem wait_backoff_exhausts_budget_c5_witness :
    wait_with_backoff (fun _ => .ok false) 3 1 (fun _ => 1) = .ok (false, 3, [1, 2, 4]) := by
  have h := wait_backoff_exhausts_budget_c5 (fun _ => .ok false) (fun _ => 1) 3 1
    (fun _ => rfl) (by norm_num) (fun _ => by norm_num)
  rw [h.1]
  norm_num [List.range_succ]

/-- C1: a polling wait whose predicate never becomes true within the attempt
budget fails with `TimeoutError`: `wait_with_backoff` itself returns `False`
after exhausting its 5 attempts, and the polling-wait operation
`wait_for_po_analysis` built on it raises
`TimeoutError("Timeout waiting for Product Owner analysis")` to its caller. -/
theorem polling_wait_timeout_c1 (env : Nat → Json) (jitter : Nat → ℚ)
    (h : ∀ k, analysis_ready (env k) = .ok false) :
    wait_for_po_analysis env jitter =
      .error (.timeoutError "Timeout waiting for Product Owner analysis") ∧
    wait_with_backoff (fun k => analysis_ready (env k)) 5 1 jitter =
      .ok (false, 5, (List.range 5).map fun i => 2 ^ i * jitter i) := by
  have hw := waitLoop_never (fun k => analysis_ready (env k)) jitter h 5 0 1
  have hw' : wait_with_backoff (fun k => analysis_ready (env k)) 5 1 jitter =
      .ok (false, 5, (List.range 5).map fun i => 2 ^ i * jitter i) := by
    rw [wait_with_backoff, hw]
    simp
  refine ⟨?_, hw'⟩
  rw [wait_for_po_analysis, hw']

/-- Witness for C1: polling over the store stuck at the freshly initialized
document (Product Owner still `pending`) times out. -/
theorem polling_wait_timeout_c1_witness :
    wait_for_po_analysis (fun _ => initial_data "Implementar login con Google") (fun _ => 1) =
      .error (.timeoutError "Timeout waiting for Product Owner analysis") :=
  (polling_wait_timeout_c1 (fun _ => initial_data "Implementar login con Google")
    (fun _ => 1) (fun _ => rfl)).1

/-! ## Update-status frame properties (C6) -/

/-- The whole agent record `data["agents"][b]` of a workflow document. -/
def agentRecord (doc : Json) (b : String) : Option Json :=
  match dictGet doc "agents" with
  | some ags => dictGet ags b
  | none => none

/-- Counterexample to C6 as stated: `update_status` with a supplied but
empty message (Python `if message:` is false for `""`) does not set the
record's `message` field, while the claim asserts the message is set whenever
one is supplied.  The record after the call holds only `status` and
`last_update`. -/
theorem update_status_empty_message_c6_cex :
    update_status "po" "working" (some "") "2024-01-01 00:00:00"
        (.obj [("task", .str "X"),
               ("agents", .obj [("po", .obj [("status", .str "pending")])])]) =
      some (.obj [("task", .str "X"),
                  ("agents", .obj [("po", .obj
                    [("status", .str "working"),
                     ("last_update", .str "2024-01-01 00:00:00")])])]) ∧
    agentField (.obj [("task", .str "X"),
                  ("agents", .obj [("po", .obj
                    [("status", .str "working"),
                     ("last_update", .str "2024-01-01 00:00:00")])])]) "po" "message" = none :=
  ⟨rfl, rfl⟩

/-- C6 (amended): for every document containing an `AgentRecord` for the
calling agent, `update_status(status, message)` mutates only that record —
setting its `status`, its `message` when a non-empty one is supplied, and its
`last_update` timestamp — and leaves the `task`, every other agent's record,
the `messages` mapping and all payload keys unchanged. -/
theorem update_status_own_record_c6 (agent status : String) (message : Option String)
    (now : String) (dl ags rec0 : List (String × Json)) (doc' : Json)
    (hag : alGet dl "agents" = some (.obj ags))
    (hrec : alGet ags agent = some (.obj rec0))
    (hres : update_status agent status message now (.obj dl) = some doc') :
    (∀ k, k ≠ "agents" → dictGet doc' k = alGet dl k) ∧
    (∀ b, b ≠ agent → agentRecord doc' b = alGet ags b) ∧
    agentField doc' agent "status" = some (.str status) ∧
    agentField doc' agent "last_update" = some (.str now) ∧
    (∀ m, message = some m → m ≠ "" → agentField doc' agent "message" = some (.str m)) ∧
    (message = none → agentField doc' agent "message" = alGet rec0 "message") ∧
    (∀ k, k ≠ "status" → k ≠ "message" → k ≠ "last_update" →
      agentField doc' agent k = alGet rec0 k) := by
  simp only [update_status, hag, hrec, Option.some.injEq] at hres
  subst hres
  set rec1 := alSet rec0 "status" (.str status) with hrec1
  have hrec2 : ∀ k, k ≠ "message" →
      alGet (match message with
             | some m => if m = "" then rec1 else alSet rec1 "message" (.str m)
             | none => rec1) k = alGet rec1 k := by
    intro k hk
    match message with
    | none => rfl
    | some m =>
      by_cases hm : m = ""
      · simp [hm]
      · simp [hm, alGet_alSet_other _ _ _ _ hk]
  refine ⟨?_, ?_, ?_, ?_, ?_, ?_, ?_⟩
  · intro k hk
    simp only [dictGet]
    exact alGet_alSet_other _ _ _ _ hk
  · intro b hb
    simp only [agentRecord, dictGet, alGet_alSet_self]
    exact alGet_alSet_other _ _ _ _ hb
  · simp only [agentField, dictGet, alGet_alSet_self]
    rw [alGet_alSet_other _ _ _ _ (by decide : ("status" : String) ≠ "last_update"),
      hrec2 _ (by decide), hrec1, alGet_alSet_self]
  · simp only [agentField, dictGet, alGet_alSet_self]
  · intro m hm hmne
    subst hm
    simp only [agentField, dictGet, alGet_alSet_self]
    rw [alGet_alSet_other _ _ _ _ (by decide : ("message" : String) ≠ "last_update")]
    simp [hmne, alGet_alSet_self]
  · intro hm
    subst hm
    simp only [agentField, dictGet, alGet_alSet_self]
    rw [alGet_alSet_other _ _ _ _ (by decide : ("message" : String) ≠ "last_update"),
      hrec1, alGet_alSet_other _ _ _ _ (by decide : ("message" : String) ≠ "status")]
  · intro k hk1 hk2 hk3
    simp only [agentField, dictGet, alGet_alSet_self]
    rw [alGet_alSet_other _ _ _ _ hk3, hrec2 _ hk2, hrec1, alGet_alSet_other _ _ _ _ hk1]

/-- Witness for C6 (Scenario A): `po.update_status("working")` on a document
with task `"X"` and agent `po` at status `pending` sets
`agents.po.status == "working"` and `last_update`, and leaves the `task`
unchanged. -/
theorem update_status_own_record_c6_witness :
    agentField (.obj [("task", .str "X"),
                  ("agents", .obj [("po", .obj
                    [("status", .str "working"),
                     ("last_update", .str "2024-01-01 00:00:00")])])]) "po" "status" =
        some (.str "working") ∧
    agentField (.obj [("task", .str "X"),
                  ("agents", .obj [("po", .obj
                    [("status", .str "working"),
                     ("last_update", .str "2024-01-01 00:00:00")])])]) "po" "last_update" =
        some (.str "2024-01-01 00:00:00") ∧
    dictGet (.obj [("task", .str "X"),
                  ("agents", .obj [("po", .obj
                    [("status", .str "working"),
                     ("last_update", .str "2024-01-01 00:00:00")])])]) "task" = some (.str "X") := by
  have h := update_status_own_record_c6 "po" "working" none "2024-01-01 00:00:00"
    [("task", .str "X"), ("agents", .obj [("po", .obj [("status", .str "pending")])])]
    [("po", .obj [("status", .str "pending")])] [("status", .str "pending")]
    (.obj [("task", .str "X"),
           ("agents", .obj [("po", .obj
             [("status", .str "working"),
              ("last_update", .str "2024-01-01 00:00:00")])])]) rfl rfl rfl
  exact ⟨h.2.2.1, h.2.2.2.1, (h.1 "task" (by decide)).trans rfl⟩

/-! ## Get-messages frame properties (C9) -/

/-- C9: `get_messages` writes the document back exactly when `mark_as_read`
holds and the agent's inbox exists and is non-empty; without a write the
store is unchanged; and when the `messages` section is absent or holds no
entry for the agent, the result is the empty mapping and the document is
untouched. -/
theorem get_messages_write_iff_c9 (agent : String) (mark : Bool)
    (dl : List (String × Json)) (res doc' : Json) (wrote : Bool)
    (h : get_messages agent mark (.obj dl) = some (res, doc', wrote)) :
    (wrote = true ↔ mark = true ∧ ∃ ms tms, alGet dl "messages" = some (.obj ms) ∧
      alGet ms agent = some (.obj tms) ∧ tms ≠ []) ∧
    (wrote = false → doc' = .obj dl) ∧
    ((alGet dl "messages" = none ∨
      (∃ ms, alGet dl "messages" = some (.obj ms) ∧ alGet ms agent = none)) →
      res = .obj [] ∧ doc' = .obj dl ∧ wrote = false) := by
  cases hms : alGet dl "messages" with
  | none =>
    simp only [get_messages, hms, Option.some.injEq, Prod.mk.injEq] at h
    obtain ⟨h1, h2, h3⟩ := h
    subst h1; subst h2; subst h3
    refine ⟨?_, fun _ => rfl, fun _ => ⟨rfl, rfl, rfl⟩⟩
    simp only [Bool.false_eq_true, false_iff]
    rintro ⟨-, ms', tms', hms', -, -⟩
    exact absurd hms' (by simp)
  | some msJson =>
    cases msJson with
    | obj ms =>
      cases hag : alGet ms agent with
      | none =>
        simp only [get_messages, hms, hag, Option.some.injEq, Prod.mk.injEq] at h
        obtain ⟨h1, h2, h3⟩ := h
        subst h1; subst h2; subst h3
        constructor
        · simp only [Bool.false_eq_true, false_iff]
          rintro ⟨-, ms', tms', hms', hag', -⟩
          simp only [Option.some.injEq, Json.obj.injEq] at hms'
          subst hms'
          rw [hag] at hag'
          exact absurd hag' (by simp)
        · exact ⟨fun _ => rfl, fun _ => ⟨rfl, rfl, rfl⟩⟩
      | some tmJson =>
        cases tmJson with
        | obj tms =>
          by_cases hcond : (mark && !tms.isEmpty) = true
          · simp only [get_messages, hms, hag] at h
            rw [if_pos hcond] at h
            cases hmark : markAllRead tms with
            | none => rw [hmark] at h; exact absurd h (by simp)
            | some tms1 =>
              rw [hmark] at h
              simp only [Option.some.injEq, Prod.mk.injEq] at h
              obtain ⟨h1, h2, h3⟩ := h
              subst h1; subst h2; subst h3
              obtain ⟨hmarkT, hne⟩ := Bool.and_eq_true_iff.mp hcond
              constructor
              · simp only [true_iff]
                refine ⟨hmarkT, ms, tms, rfl, hag, ?_⟩
                intro hnil
                rw [hnil] at hne
                simp at hne
              · refine ⟨fun habs => absurd habs (by decide), ?_⟩
                rintro (habs | ⟨ms', hms', hag'⟩)
                · exact absurd habs (by simp)
                · simp only [Option.some.injEq, Json.obj.injEq] at hms'
                  subst hms'
                  rw [hag] at hag'
                  exact absurd hag' (by simp)
          · simp only [get_messages, hms, hag] at h
            rw [if_neg hcond] at h
            simp only [Option.some.injEq, Prod.mk.injEq] at h
            obtain ⟨h1, h2, h3⟩ := h
            subst h1; subst h2; subst h3
            constructor
            · simp only [Bool.false_eq_true, false_iff]
              rintro ⟨hmarkT, ms', tms', hms', hag', hne⟩
              simp only [Option.some.injEq, Json.obj.injEq] at hms'
              subst hms'
              rw [hag] at hag'
              simp only [Option.some.injEq, Json.obj.injEq] at hag'
              subst hag'
              apply hcond
              obtain ⟨p, rest, rfl⟩ := List.exists_cons_of_ne_nil hne
              simp [hmarkT]
            · refine ⟨fun _ => rfl, ?_⟩
              rintro (habs | ⟨ms', hms', hag'⟩)
              · exact absurd habs (by simp)
              · simp only [Option.some.injEq, Json.obj.injEq] at hms'
                subst hms'
                rw [hag] at hag'
                exact absurd hag' (by simp)
        | null => simp [get_messages, hms, hag] at h
        | bool b => simp [get_messages, hms, hag] at h
        | num n => simp [get_messages, hms, hag] at h
        | str s => simp [get_messages, hms, hag] at h
        | arr xs => simp [get_messages, hms, hag] at h
    | null => simp [get_messages, hms] at h
    | bool b => simp [get_messages, hms] at h
    | num n => simp [get_messages, hms] at h
    | str s => simp [get_messages, hms] at h
    | arr xs => simp [get_messages, hms] at h

/-- Witness for C9: on a document whose `se` inbox holds one message, a
`get_messages` with `mark_as_read` does write the document back. -/
theorem get_messages_write_iff_c9_witness :
    (true : Bool) = true ↔ (true : Bool) = true ∧ ∃ ms tms,
      alGet [("messages", Json.obj [("se", Json.obj [("q1", msgEntry "hello" "po" "t1")])])]
        "messages" = some (.obj ms) ∧
      alGet ms "se" = some (.obj tms) ∧ tms ≠ [] :=
  (get_messages_write_iff_c9 "se" true
    [("messages", Json.obj [("se", Json.obj [("q1", msgEntry "hello" "po" "t1")])])]
    (.obj [("q1", Json.obj [("content", .str "hello"), ("from", .str "po"),
      ("timestamp", .str "t1"), ("read", .bool true)])])
    (.obj [("messages", Json.obj [("se", Json.obj [("q1", Json.obj
      [("content", .str "hello"), ("from", .str "po"),
       ("timestamp", .str "t1"), ("read", .bool true)])])])])
    true rfl).1

/-! ## Message delivery (C2) -/

/-- Marking one entry read: the effect of `entry["read"] = True` on a dict
entry (non-dict entries make the loop raise and never reach this point). -/
def setRead : Json → Json
  | .obj e => .obj (alSet e "read" (.bool true))
  | j => j

theorem markAllRead_eq (l : List (String × Json))
    (h : ∀ p ∈ l, ∃ e, p.2 = Json.obj e) :
    markAllRead l = some (l.map fun p => (p.1, setRead p.2)) := by
  induction l with
  | nil => rfl
  | cons hd tl ih =>
    obtain ⟨k, v⟩ := hd
    obtain ⟨e, he⟩ := h (k, v) (List.mem_cons_self _ _)
    simp only at he
    subst he
    rw [List.map_cons, markAllRead, ih (fun p hp => h p (List.mem_cons_of_mem _ hp))]
    rfl

theorem alGet_mapVal (f : Json → Json) (l : List (String × Json)) (k : String) :
    alGet (l.map fun p => (p.1, f p.2)) k = (alGet l k).map f := by
  induction l with
  | nil => rfl
  | cons hd tl ih =>
    obtain ⟨k0, v0⟩ := hd
    by_cases h : k0 = k <;> simp [alGet, h, ih]

theorem alSet_ne_nil {α : Type} (l : List (String × α)) (k : String) (v : α) :
    alSet l k v ≠ [] := by
  cases l with
  | nil => simp [alSet]
  | cons hd tl =>
    obtain ⟨k0, v0⟩ := hd
    by_cases h : k0 = k <;> simp [alSet, h]

theorem isObjAll_alSet (l : List (String × Json)) (k : String) (e : List (String × Json))
    (h : ∀ p ∈ l, ∃ e0, p.2 = Json.obj e0) :
    ∀ p ∈ alSet l k (.obj e), ∃ e0, p.2 = Json.obj e0 := by
  induction l with
  | nil =>
    intro p hp
    simp only [alSet, List.mem_singleton] at hp
    subst hp
    exact ⟨e, rfl⟩
  | cons hd tl ih =>
    intro p hp
    obtain ⟨k0, v0⟩ := hd
    by_cases hk : k0 = k
    · simp only [alSet, hk, if_pos, List.mem_cons] at hp
      rcases hp with hp | hp
      · subst hp; exact ⟨e, rfl⟩
      · exact h p (List.mem_cons_of_mem _ hp)
    · simp only [alSet, hk, if_neg, ite_false, List.mem_cons] at hp
      rcases hp with hp | hp
      · subst hp; exact h (k0, v0) (List.mem_cons_self _ _)
      · exact ih (fun q hq => h q (List.mem_cons_of_mem _ hq)) p hp

theorem isObjAll_mapSetRead (l : List (String × Json))
    (h : ∀ p ∈ l, ∃ e0, p.2 = Json.obj e0) :
    ∀ p ∈ (l.map fun p => (p.1, setRead p.2)), ∃ e0, p.2 = Json.obj e0 := by
  intro p hp
  simp only [List.mem_map] at hp
  obtain ⟨q, hq, rfl⟩ := hp
  obtain ⟨e0, he0⟩ := h q hq
  exact ⟨alSet e0 "read" (.bool true), by simp [he0, setRead]⟩

/-- After a send, the recipient's stored inbox is `alSet tms k entry`; this
helper settles both `receive()` calls of Scenario B over such an inbox. -/
theorem receive_after_send (A B k c ts : String) (DL1 MS tms : List (String × Json))
    (h1 : alGet DL1 "messages" = some (.obj MS))
    (h2 : alGet MS B = some (.obj (alSet tms k (msgEntry c A ts))))
    (hobj : ∀ p ∈ tms, ∃ e, p.2 = Json.obj e) :
    readFlag (.obj DL1) B k = some (.bool false) ∧
    (∃ res1 doc2 w1, get_messages B true (.obj DL1) = some (res1, doc2, w1) ∧
      (∃ e1, dictGet res1 k = some e1 ∧ dictGet e1 "content" = some (.str c) ∧
        dictGet e1 "from" = some (.str A)) ∧
      ∃ res2 doc3 w2, get_messages B true doc2 = some (res2, doc3, w2) ∧
        ∃ e2, dictGet res2 k = some e2 ∧ dictGet e2 "content" = some (.str c) ∧
          dictGet e2 "from" = some (.str A) ∧ dictGet e2 "read" = some (.bool true)) := by
  set e0 := msgEntry c A ts with he0
  set TMS := alSet tms k e0 with hTMS
  have hobjTMS : ∀ p ∈ TMS, ∃ e, p.2 = Json.obj e :=
    isObjAll_alSet tms k _ hobj
  have hTMSget : alGet TMS k = some e0 := alGet_alSet_self tms k e0
  have hTMSne : TMS.isEmpty = false := by
    rcases hTMS' : TMS with - | ⟨p, rest⟩
    · exact absurd hTMS' (alSet_ne_nil tms k e0)
    · rfl
  set TMS1 := TMS.map (fun p => (p.1, setRead p.2)) with hTMS1
  have hmark1 : markAllRead TMS = some TMS1 := markAllRead_eq TMS hobjTMS
  have hobjTMS1 : ∀ p ∈ TMS1, ∃ e, p.2 = Json.obj e := isObjAll_mapSetRead TMS hobjTMS
  have hTMS1get : alGet TMS1 k = some (setRead e0) := by
    rw [hTMS1, alGet_mapVal, hTMSget]
    rfl
  have hTMS1ne : TMS1.isEmpty = false := by
    rw [hTMS1]
    rcases hTMS' : TMS with - | ⟨p, rest⟩
    · exact absurd hTMS' (alSet_ne_nil tms k e0)
    · rfl
  set TMS2 := TMS1.map (fun p => (p.1, setRead p.2)) with hTMS2
  have hmark2 : markAllRead TMS1 = some TMS2 := markAllRead_eq TMS1 hobjTMS1
  have hTMS2get : alGet TMS2 k = some (setRead (setRead e0)) := by
    rw [hTMS2, alGet_mapVal, hTMS1get]
    rfl
  have hsr : setRead e0 = .obj [("content", .str c), ("from", .str A),
      ("timestamp", .str ts), ("read", .bool true)] := rfl
  have hsr2 : setRead (setRead e0) = .obj [("content", .str c), ("from", .str A),
      ("timestamp", .str ts), ("read", .bool true)] := rfl
  refine ⟨?_, ?_⟩
  · rw [readFlag]
    simp only [dictGet, h1, h2, hTMSget, he0, msgEntry]
    rfl
  · refine ⟨.obj TMS1, .obj (alSet DL1 "messages" (.obj (alSet MS B (.obj TMS1)))),
      true, ?_, ?_, ?_⟩
    · simp only [get_messages, h1, h2]
      rw [if_pos (by simp [hTMSne])]
      simp only [hmark1]
    · exact ⟨setRead e0, by simpa [dictGet] using hTMS1get,
        by rw [hsr]; rfl, by rw [hsr]; rfl⟩
    · refine ⟨.obj TMS2,
        .obj (alSet (alSet DL1 "messages" (.obj (alSet MS B (.obj TMS1)))) "messages"
          (.obj (alSet (alSet MS B (.obj TMS1)) B (.obj TMS2)))), true, ?_, ?_⟩
      · simp only [get_messages, alGet_alSet_self]
        rw [if_pos (by simp [hTMS1ne])]
        simp only [hmark2]
      · exact ⟨setRead (setRead e0), by simpa [dictGet] using hTMS2get,
          by rw [hsr2]; rfl, by rw [hsr2]; rfl, by rw [hsr2]; rfl⟩

/-- C2: after agent A sends `(to := B, key := k, content := c)`, the stored
entry at key `k` has `read == false` before the first receive; a `receive()`
by B returns an entry at key `k` with `content == c` and `from == A`; and a
receive performed after a receive with `mark_as_read` returns that entry with
`read == true`.  The shape hypothesis says the pre-existing inbox (when any)
is a dict of dict entries, which every protocol-written document satisfies. -/
theorem message_delivery_c2 (A B k c ts : String) (dl : List (String × Json)) (doc1 : Json)
    (hshape : alGet dl "messages" = none ∨
      (∃ ms, alGet dl "messages" = some (.obj ms) ∧
        (alGet ms B = none ∨ ∃ tms, alGet ms B = some (.obj tms) ∧
          ∀ p ∈ tms, ∃ e, p.2 = Json.obj e)))
    (hsend : send_message_to_agent A B k c ts (.obj dl) = some doc1) :
    readFlag doc1 B k = some (.bool false) ∧
    (∃ res1 doc2 w1, get_messages B true doc1 = some (res1, doc2, w1) ∧
      (∃ e1, dictGet res1 k = some e1 ∧ dictGet e1 "content" = some (.str c) ∧
        dictGet e1 "from" = some (.str A)) ∧
      ∃ res2 doc3 w2, get_messages B true doc2 = some (res2, doc3, w2) ∧
        ∃ e2, dictGet res2 k = some e2 ∧ dictGet e2 "content" = some (.str c) ∧
          dictGet e2 "from" = some (.str A) ∧ dictGet e2 "read" = some (.bool true)) := by
  rcases hshape with hms | ⟨ms, hms, hmsb | ⟨tms, hmsb, hobj⟩⟩
  · simp only [send_message_to_agent, ensureKeyObj, hms, Option.isSome_none,
      Option.isSome_some, Bool.false_eq_true, ite_false, if_false, ite_true, if_true,
      eq_self_iff_true, alGet_alSet_self, alGet, Option.some.injEq] at hsend
    subst hsend
    exact receive_after_send A B k c ts _ _ [] (alGet_alSet_self _ _ _)
      (alGet_alSet_self _ _ _) (by intro p hp; cases hp)
  · simp only [send_message_to_agent, ensureKeyObj, hms, hmsb, Option.isSome_some,
      Option.isSome_none, Bool.false_eq_true, ite_false, if_false, ite_true, if_true,
      eq_self_iff_true, alGet_alSet_self, alGet, Option.some.injEq] at hsend
    subst hsend
    exact receive_after_send A B k c ts _ _ [] (alGet_alSet_self _ _ _)
      (alGet_alSet_self _ _ _) (by intro p hp; cases hp)
  · simp only [send_message_to_agent, ensureKeyObj, hms, hmsb, Option.isSome_some,
      ite_true, if_true, eq_self_iff_true, alGet_alSet_self, alGet,
      Option.some.injEq] at hsend
    subst hsend
    exact receive_after_send A B k c ts _ _ tms (alGet_alSet_self _ _ _)
      (alGet_alSet_self _ _ _) hobj

/-- Witness for C2 (Scenario B): `send(to="se", key="q1", content="hello")`
into a fresh document, then two receives by `se`. -/
theorem message_delivery_c2_witness :
    readFlag (.obj [("task", .str "X"),
        ("messages", .obj [("se", .obj [("q1", msgEntry "hello" "po" "t1")])])]) "se" "q1" =
      some (.bool false) ∧
    (∃ res1 doc2 w1, get_messages "se" true (.obj [("task", .str "X"),
        ("messages", .obj [("se", .obj [("q1", msgEntry "hello" "po" "t1")])])]) =
        some (res1, doc2, w1) ∧
      (∃ e1, dictGet res1 "q1" = some e1 ∧ dictGet e1 "content" = some (.str "hello") ∧
        dictGet e1 "from" = some (.str "po")) ∧
      ∃ res2 doc3 w2, get_messages "se" true doc2 = some (res2, doc3, w2) ∧
        ∃ e2, dictGet res2 "q1" = some e2 ∧ dictGet e2 "content" = some (.str "hello") ∧
          dictGet e2 "from" = some (.str "po") ∧ dictGet e2 "read" = some (.bool true)) :=
  message_delivery_c2 "po" "se" "q1" "hello" "t1" [("task", .str "X")]
    (.obj [("task", .str "X"),
        ("messages", .obj [("se", .obj [("q1", msgEntry "hello" "po" "t1")])])])
    (Or.inl rfl) rfl

/-! ## Read-flag monotonicity (C3) -/

/-- The agent record produced by a successful `update_status`. -/
def statusRec (rec0 : List (String × Json)) (st : String) (m : Option String)
    (now : String) : List (String × Json) :=
  alSet (match m with
         | some s => if s = "" then alSet rec0 "status" (.str st)
                     else alSet (alSet rec0 "status" (.str st)) "message" (.str s)
         | none => alSet rec0 "status" (.str st)) "last_update" (.str now)

theorem update_status_inv (a st : String) (m : Option String) (now : String)
    (dl : List (String × Json)) (doc' : Json)
    (h : update_status a st m now (.obj dl) = some doc') :
    ∃ ags rec0, alGet dl "agents" = some (.obj ags) ∧ alGet ags a = some (.obj rec0) ∧
      doc' = .obj (alSet dl "agents" (.obj (alSet ags a (.obj (statusRec rec0 st m now))))) := by
  rcases h1 : alGet dl "agents" with - | (- | b | n | s | xs | ags)
  · simp only [update_status, h1] at h; exact absurd h (by simp)
  · simp only [update_status, h1] at h; exact absurd h (by simp)
  · simp only [update_status, h1] at h; exact absurd h (by simp)
  · simp only [update_status, h1] at h; exact absurd h (by simp)
  · simp only [update_status, h1] at h; exact absurd h (by simp)
  · simp only [update_status, h1] at h; exact absurd h (by simp)
  · rcases h2 : alGet ags a with - | (- | b | n | s | xs | rec0)
    · simp only [update_status, h1, h2] at h; exact absurd h (by simp)
    · simp only [update_status, h1, h2] at h; exact absurd h (by simp)
    · simp only [update_status, h1, h2] at h; exact absurd h (by simp)
    · simp only [update_status, h1, h2] at h; exact absurd h (by simp)
    · simp only [update_status, h1, h2] at h; exact absurd h (by simp)
    · simp only [update_status, h1, h2] at h; exact absurd h (by simp)
    · simp only [update_status, h1, h2, Option.some.injEq] at h
      refine ⟨ags, rec0, rfl, h2, ?_⟩
      simp only [statusRec]
      exact h.symm

theorem increment_iteration_inv (dl : List (String × Json)) (doc' : Json) (n' : Int)
    (h : increment_iteration (.obj dl) = some (doc', n')) :
    ∃ n, alGet dl "iterations" = some (.num n) ∧
      doc' = .obj (alSet dl "iterations" (.num (n + 1))) ∧ n' = n + 1 := by
  rcases h1 : alGet dl "iterations" with - | (- | b | n | s | xs | ms)
  · simp only [increment_iteration, h1] at h; exact absurd h (by simp)
  · simp only [increment_iteration, h1] at h; exact absurd h (by simp)
  · simp only [increment_iteration, h1] at h; exact absurd h (by simp)
  · simp only [increment_iteration, h1, Option.some.injEq, Prod.mk.injEq] at h
    exact ⟨n, rfl, h.1.symm, h.2.symm⟩
  · simp only [increment_iteration, h1] at h; exact absurd h (by simp)
  · simp only [increment_iteration, h1] at h; exact absurd h (by simp)
  · simp only [increment_iteration, h1] at h; exact absurd h (by simp)

theorem alGet_ensureKeyObj_other (l : List (String × Json)) (k0 r : String)
    (h : r ≠ k0) : alGet (ensureKeyObj l k0) r = alGet l r := by
  rw [ensureKeyObj]
  by_cases hs : (alGet l k0).isSome
  · rw [if_pos hs]
  · rw [if_neg hs]
    exact alGet_alSet_other _ _ _ _ h

theorem ensureKeyObj_inv (l : List (String × Json)) (k0 : String)
    (v : List (String × Json)) (h : alGet (ensureKeyObj l k0) k0 = some (.obj v)) :
    alGet l k0 = some (.obj v) ∨ (alGet l k0 = none ∧ v = []) := by
  rw [ensureKeyObj] at h
  cases hs : alGet l k0 with
  | none =>
    rw [if_neg (by simp [hs])] at h
    rw [alGet_alSet_self] at h
    simp only [Option.some.injEq, Json.obj.injEq] at h
    exact Or.inr ⟨rfl, h.symm⟩
  | some w =>
    rw [if_pos (by simp [hs])] at h
    rw [hs] at h
    exact Or.inl h

theorem send_inv (A B key c ts : String) (dl : List (String × Json)) (doc' : Json)
    (h : send_message_to_agent A B key c ts (.obj dl) = some doc') :
    ∃ ms tms, alGet (ensureKeyObj dl "messages") "messages" = some (.obj ms) ∧
      alGet (ensureKeyObj ms B) B = some (.obj tms) ∧
      doc' = .obj (alSet (ensureKeyObj dl "messages") "messages"
        (.obj (alSet (ensureKeyObj ms B) B (.obj (alSet tms key (msgEntry c A ts)))))) := by
  rcases h1 : alGet (ensureKeyObj dl "messages") "messages" with - | (- | b | n | s | xs | ms)
  · simp only [send_message_to_agent, h1] at h; exact absurd h (by simp)
  · simp only [send_message_to_agent, h1] at h; exact absurd h (by simp)
  · simp only [send_message_to_agent, h1] at h; exact absurd h (by simp)
  · simp only [send_message_to_agent, h1] at h; exact absurd h (by simp)
  · simp only [send_message_to_agent, h1] at h; exact absurd h (by simp)
  · simp only [send_message_to_agent, h1] at h; exact absurd h (by simp)
  · rcases h2 : alGet (ensureKeyObj ms B) B with - | (- | b | n | s | xs | tms)
    · simp only [send_message_to_agent, h1, h2] at h; exact absurd h (by simp)
    · simp only [send_message_to_agent, h1, h2] at h; exact absurd h (by simp)
    · simp only [send_message_to_agent, h1, h2] at h; exact absurd h (by simp)
    · simp only [send_message_to_agent, h1, h2] at h; exact absurd h (by simp)
    · simp only [send_message_to_agent, h1, h2] at h; exact absurd h (by simp)
    · simp only [send_message_to_agent, h1, h2] at h; exact absurd h (by simp)
    · simp only [send_message_to_agent, h1, h2, Option.some.injEq] at h
      exact ⟨ms, tms, rfl, h2, h.symm⟩

theorem markAllRead_alGet (l l1 : List (String × Json)) (h : markAllRead l = some l1)
    (k : String) (e : Json) (he : alGet l k = some e) :
    ∃ eL, e = Json.obj eL ∧ alGet l1 k = some (.obj (alSet eL "read" (.bool true))) := by
  induction l generalizing l1 with
  | nil => exact absurd he (by simp [alGet])
  | cons hd tl ih =>
    obtain ⟨k0, v0⟩ := hd
    cases v0 with
    | obj e0 =>
      rw [markAllRead] at h
      cases hm : markAllRead tl with
      | none => rw [hm] at h; exact absurd h (by simp)
      | some r =>
        rw [hm] at h
        simp only [Option.some.injEq] at h
        subst h
        by_cases hk : k0 = k
        · rw [alGet, if_pos hk] at he
          simp only [Option.some.injEq] at he
          exact ⟨e0, he.symm, by rw [alGet, if_pos hk]⟩
        · rw [alGet, if_neg hk] at he
          obtain ⟨eL, h1, h2⟩ := ih r hm he
          exact ⟨eL, h1, by rw [alGet, if_neg hk]; exact h2⟩
    | null => simp [markAllRead] at h
    | bool b => simp [markAllRead] at h
    | num n => simp [markAllRead] at h
    | str s => simp [markAllRead] at h
    | arr xs => simp [markAllRead] at h

/-- Counterexample to C3 as stated: a message at `("se", "q1")` already marked
read is overwritten by a later `send_message_to_agent` to the same recipient
and key, and the stored `read` flag at that key flips back from `true` to
`false` — a protocol operation un-marks the key. -/
theorem send_overwrites_read_flag_c3_cex :
    readFlag (.obj [("messages", .obj [("se", .obj [("q1", .obj
        [("content", .str "hello"), ("from", .str "po"),
         ("timestamp", .str "t1"), ("read", .bool true)])])])]) "se" "q1" =
      some (.bool true) ∧
    send_message_to_agent "po" "se" "q1" "hello again" "t2"
        (.obj [("messages", .obj [("se", .obj [("q1", .obj
          [("content", .str "hello"), ("from", .str "po"),
           ("timestamp", .str "t1"), ("read", .bool true)])])])]) =
      some (.obj [("messages", .obj [("se", .obj
        [("q1", msgEntry "hello again" "po" "t2")])])]) ∧
    readFlag (.obj [("messages", .obj [("se", .obj
        [("q1", msgEntry "hello again" "po" "t2")])])]) "se" "q1" =
      some (.bool false) :=
  ⟨rfl, rfl, rfl⟩

/-- C3 (amended): `update_status` and `increment_iteration` leave every
stored message — in particular every `read` flag — unchanged; `get_messages`
never turns a `read` flag from `true` to `false`; and
`send_message_to_agent(target, key, ...)` preserves the `read` flag at every
`(recipient, key)` pair other than the one it overwrites with a fresh unread
message. -/
theorem read_flag_monotone_c3 :
    (∀ a st m now dl doc', update_status a st m now (.obj dl) = some doc' →
      ∀ r k, readFlag doc' r k = readFlag (.obj dl) r k) ∧
    (∀ dl doc' n', increment_iteration (.obj dl) = some (doc', n') →
      ∀ r k, readFlag doc' r k = readFlag (.obj dl) r k) ∧
    (∀ a mark dl res doc' w, get_messages a mark (.obj dl) = some (res, doc', w) →
      ∀ r k, readFlag (.obj dl) r k = some (.bool true) →
        readFlag doc' r k = some (.bool true)) ∧
    (∀ A B key c ts dl doc', send_message_to_agent A B key c ts (.obj dl) = some doc' →
      ∀ r k, r ≠ B ∨ k ≠ key → readFlag doc' r k = readFlag (.obj dl) r k) := by
  refine ⟨?_, ?_, ?_, ?_⟩
  · intro a st m now dl doc' h r k
    obtain ⟨ags, rec0, h1, h2, rfl⟩ := update_status_inv a st m now dl doc' h
    rw [readFlag, readFlag]
    simp only [dictGet]
    rw [alGet_alSet_other _ _ _ _ (by decide : ("messages" : String) ≠ "agents")]
  · intro dl doc' n' h r k
    obtain ⟨n, h1, rfl, -⟩ := increment_iteration_inv dl doc' n' h
    rw [readFlag, readFlag]
    simp only [dictGet]
    rw [alGet_alSet_other _ _ _ _ (by decide : ("messages" : String) ≠ "iterations")]
  · intro a mark dl res doc' w h r k hflag
    rcases hms : alGet dl "messages" with - | (- | b | n | s | xs | ms)
    · rw [readFlag] at hflag; simp only [dictGet, hms] at hflag; exact absurd hflag (by simp)
    · simp only [get_messages, hms] at h; exact absurd h (by simp)
    · simp only [get_messages, hms] at h; exact absurd h (by simp)
    · simp only [get_messages, hms] at h; exact absurd h (by simp)
    · simp only [get_messages, hms] at h; exact absurd h (by simp)
    · simp only [get_messages, hms] at h; exact absurd h (by simp)
    · rcases hag : alGet ms a with - | (- | b | n | s | xs | tms)
      · simp only [get_messages, hms, hag, Option.some.injEq, Prod.mk.injEq] at h
        rw [← h.2.1]
        exact hflag
      · simp only [get_messages, hms, hag] at h; exact absurd h (by simp)
      · simp only [get_messages, hms, hag] at h; exact absurd h (by simp)
      · simp only [get_messages, hms, hag] at h; exact absurd h (by simp)
      · simp only [get_messages, hms, hag] at h; exact absurd h (by simp)
      · simp only [get_messages, hms, hag] at h; exact absurd h (by simp)
      · by_cases hcond : (mark && !tms.isEmpty) = true
        · simp only [get_messages, hms, hag] at h
          rw [if_pos hcond] at h
          cases hmark : markAllRead tms with
          | none => rw [hmark] at h; exact absurd h (by simp)
          | some tms1 =>
            rw [hmark] at h
            simp only [Option.some.injEq, Prod.mk.injEq] at h
            rw [← h.2.1]
            rw [readFlag] at hflag ⊢
            simp only [dictGet, hms, alGet_alSet_self] at hflag ⊢
            by_cases hr : r = a
            · subst hr
              simp only [alGet_alSet_self]
              simp only [hag] at hflag
              cases hek : alGet tms k with
              | none => simp only [hek] at hflag; exact absurd hflag (by simp)
              | some e =>
                simp only [hek] at hflag
                obtain ⟨eL, rfl, hget⟩ := markAllRead_alGet tms tms1 hmark k e hek
                simp only [hget, dictGet, alGet_alSet_self]
            · simp only [alGet_alSet_other _ _ _ _ hr]
              exact hflag
        · simp only [get_messages, hms, hag] at h
          rw [if_neg hcond] at h
          simp only [Option.some.injEq, Prod.mk.injEq] at h
          rw [← h.2.1]
          exact hflag
  · intro A B key c ts dl doc' h r k hne
    obtain ⟨ms, tms, h1, h2, rfl⟩ := send_inv A B key c ts dl doc' h
    rw [readFlag, readFlag]
    simp only [dictGet, alGet_alSet_self]
    rcases ensureKeyObj_inv dl "messages" ms h1 with hdl | ⟨hdl, rfl⟩
    · simp only [hdl]
      by_cases hr : r = B
      · subst hr
        simp only [alGet_alSet_self]
        rcases ensureKeyObj_inv ms r tms h2 with hms2 | ⟨hms2, rfl⟩
        · simp only [hms2]
          rcases hne with hne | hne
          · exact absurd rfl hne
          · simp only [dictGet, alGet_alSet_other _ _ _ _ hne]
        · simp only [hms2]
          rcases hne with hne | hne
          · exact absurd rfl hne
          · simp only [dictGet, alGet_alSet_other _ _ _ _ hne, alGet]
            rw [if_neg (fun hh => hne (Eq.symm hh))]
      · simp only [alGet_alSet_other _ _ _ _ hr, alGet_ensureKeyObj_other ms B r hr]
    · simp only [hdl]
      by_cases hr : r = B
      · subst hr
        simp only [alGet_alSet_self]
        rcases ensureKeyObj_inv [] r tms h2 with hms2 | ⟨hms2, rfl⟩
        · exact absurd hms2 (by simp [alGet])
        · rcases hne with hne | hne
          · exact absurd rfl hne
          · simp only [dictGet, alGet_alSet_other _ _ _ _ hne, alGet]
            rw [if_neg (fun hh => hne (Eq.symm hh))]
      · simp only [alGet_alSet_other _ _ _ _ hr, alGet_ensureKeyObj_other [] B r hr, alGet]
        rw [if_neg (fun hh => hr (Eq.symm hh))]

/-- Witness for C3 (amended), fourth conjunct: a send to `("se", "q2")` leaves
the read flag stored at `("se", "q1")` exactly as it was. -/
theorem read_flag_monotone_c3_witness :
    readFlag (.obj [("messages", .obj [("se", .obj
        [("q1", .obj [("content", .str "hello"), ("from", .str "po"),
           ("timestamp", .str "t1"), ("read", .bool true)]),
         ("q2", msgEntry "more" "po" "t2")])])]) "se" "q1" =
      readFlag (.obj [("messages", .obj [("se", .obj
        [("q1", .obj [("content", .str "hello"), ("from", .str "po"),
           ("timestamp", .str "t1"), ("read", .bool true)])])])]) "se" "q1" :=
  read_flag_monotone_c3.2.2.2 "po" "se" "q2" "more" "t2"
    [("messages", .obj [("se", .obj
      [("q1", .obj [("content", .str "hello"), ("from", .str "po"),
         ("timestamp", .str "t1"), ("read", .bool true)])])])]
    (.obj [("messages", .obj [("se", .obj
      [("q1", .obj [("content", .str "hello"), ("from", .str "po"),
         ("timestamp", .str "t1"), ("read", .bool true)]),
       ("q2", msgEntry "more" "po" "t2")])])])
    rfl "se" "q1" (Or.inr (by decide))

/-! ## Timeout propagation through the agent and the orchestrator (C7) -/

theorem statusRec_status (rec0 : List (String × Json)) (st : String) (m : Option String)
    (now : String) : alGet (statusRec rec0 st m now) "status" = some (.str st) := by
  match m with
  | none =>
    simp only [statusRec]
    rw [alGet_alSet_other _ _ _ _ (by decide : ("status" : String) ≠ "last_update")]
    exact alGet_alSet_self _ _ _
  | some s =>
    by_cases hs : s = ""
    · simp only [statusRec, hs, eq_self_iff_true, ite_true, if_true]
      rw [alGet_alSet_other _ _ _ _ (by decide : ("status" : String) ≠ "last_update")]
      exact alGet_alSet_self _ _ _
    · simp only [statusRec, if_neg hs]
      rw [alGet_alSet_other _ _ _ _ (by decide : ("status" : String) ≠ "last_update"),
        alGet_alSet_other _ _ _ _ (by decide : ("status" : String) ≠ "message")]
      exact alGet_alSet_self _ _ _

theorem statusRec_message_some (rec0 : List (String × Json)) (st s : String)
    (now : String) (hs : s ≠ "") :
    alGet (statusRec rec0 st (some s) now) "message" = some (.str s) := by
  simp only [statusRec, if_neg hs]
  rw [alGet_alSet_other _ _ _ _ (by decide : ("message" : String) ≠ "last_update")]
  exact alGet_alSet_self _ _ _

/-- C7: when the polling wait exhausts its budget, the waiting agent
(`StaffEngineerAgent.run`) receives the distinct `TimeoutError`, records its
own status as `error` with the timeout message in the shared document, and
re-raises the same exception to its caller; the orchestrator (`run.py`)
catches per-agent failures and still processes every script in its list. -/
theorem timeout_error_propagation_c7 (rest : Json → Json × Except PyErr Unit)
    (doc0 doc1 doc2 : Json) (now : String) (jitter : Nat → ℚ)
    (h1 : update_status "staff_engineer" "initializing" none now doc0 = some doc1)
    (h2 : analysis_ready doc1 = .ok false)
    (h3 : update_status "staff_engineer" "error"
      (some "Timeout waiting for Product Owner analysis") now doc1 = some doc2) :
    staff_engineer_run rest doc0 now jitter =
      (doc2, .error (.timeoutError "Timeout waiting for Product Owner analysis")) ∧
    agentField doc2 "staff_engineer" "status" = some (.str "error") ∧
    agentField doc2 "staff_engineer" "message" =
      some (.str "Timeout waiting for Product Owner analysis") ∧
    (∀ steps doc, ((orchestrate steps doc).2).length = steps.length) := by
  have hwait : wait_for_po_analysis (fun _ => doc1) jitter =
      .error (.timeoutError "Timeout waiting for Product Owner analysis") := by
    have hw := waitLoop_never (fun _ => analysis_ready doc1) jitter (fun _ => h2) 5 0 1
    simp only [wait_for_po_analysis, wait_with_backoff, hw]
  refine ⟨?_, ?_, ?_, ?_⟩
  · simp only [staff_engineer_run, h1, hwait, pyErrStr, h3]
  · rcases doc1 with - | b | n | s | xs | dl1
    · simp [update_status] at h3
    · simp [update_status] at h3
    · simp [update_status] at h3
    · simp [update_status] at h3
    · simp [update_status] at h3
    · obtain ⟨ags, rec0, hag, hrec, rfl⟩ :=
        update_status_inv "staff_engineer" "error"
          (some "Timeout waiting for Product Owner analysis") now dl1 doc2 h3
      simp only [agentField, dictGet, alGet_alSet_self]
      exact statusRec_status rec0 "error" _ now
  · rcases doc1 with - | b | n | s | xs | dl1
    · simp [update_status] at h3
    · simp [update_status] at h3
    · simp [update_status] at h3
    · simp [update_status] at h3
    · simp [update_status] at h3
    · obtain ⟨ags, rec0, hag, hrec, rfl⟩ :=
        update_status_inv "staff_engineer" "error"
          (some "Timeout waiting for Product Owner analysis") now dl1 doc2 h3
      simp only [agentField, dictGet, alGet_alSet_self]
      exact statusRec_message_some rec0 "error" _ now (by decide)
  · intro steps
    induction steps with
    | nil => intro doc; rfl
    | cons s restSteps ih =>
      intro doc
      simp only [orchestrate, List.length_cons]
      rw [ih]

/-- Witness for C7: running the staff engineer on a freshly initialized
document, with the Product Owner stuck at `pending`, times out, stores the
`error` status with the timeout message, and re-raises. -/
theorem timeout_error_propagation_c7_witness :
    staff_engineer_run (fun d => (d, .ok ())) (initial_data "T") "t0" (fun _ => 1) =
      (.obj [("task", .str "T"), ("workflow_state", .str "initialized"),
        ("agents", .obj [("product_owner", .obj [("status", .str "pending")]),
          ("staff_engineer", .obj [("status", .str "error"),
            ("last_update", .str "t0"),
            ("message", .str "Timeout waiting for Product Owner analysis")]),
          ("engineering_manager", .obj [("status", .str "pending")])]),
        ("iterations", .num 0), ("max_iterations", .num 3)],
       .error (.timeoutError "Timeout waiting for Product Owner analysis")) :=
  (timeout_error_propagation_c7 (fun d => (d, .ok ())) (initial_data "T")
    (.obj [("task", .str "T"), ("workflow_state", .str "initialized"),
      ("agents", .obj [("product_owner", .obj [("status", .str "pending")]),
        ("staff_engineer", .obj [("status", .str "initializing"),
          ("last_update", .str "t0")]),
        ("engineering_manager", .obj [("status", .str "pending")])]),
      ("iterations", .num 0), ("max_iterations", .num 3)])
    (.obj [("task", .str "T"), ("workflow_state", .str "initialized"),
      ("agents", .obj [("product_owner", .obj [("status", .str "pending")]),
        ("staff_engineer", .obj [("status", .str "error"),
          ("last_update", .str "t0"),
          ("message", .str "Timeout waiting for Product Owner analysis")]),
        ("engineering_manager", .obj [("status", .str "pending")])]),
      ("iterations", .num 0), ("max_iterations", .num 3)])
    "t0" (fun _ => 1) rfl rfl rfl).1

/-! ## Token tracker of the conversational agent (C10)

Embeds `src/poc4_conversational_agent/token_tracker.py` together with the
configuration constants it reads from `constants.py`.  Costs are rationals;
token counts are integers. -/

structure ModelInfo where
  context_window : Nat
  display_name : String
  cost_per_input_token : ℚ
  cost_per_output_token : ℚ

/-- The `MODELS` table of `constants.py` (lines 4-23). -/
def MODELS : List (String × ModelInfo) :=
  [("claude-3-5-haiku-latest", ⟨200000, "Claude 3.5 Haiku", 8 / 10 ^ 7, 4 / 10 ^ 6⟩),
   ("claude-sonnet-4-0", ⟨200000, "Claude 4 Sonnet", 3 / 10 ^ 6, 15 / 10 ^ 6⟩),
   ("claude-opus-4-0", ⟨200000, "Claude 4 Opus", 15 / 10 ^ 6, 75 / 10 ^ 6⟩)]

def DEFAULT_MODEL : String := "claude-3-5-haiku-latest"

/-- The `get_model_info` lookup of `constants.py` (lines 97-101):
`MODELS.get(model_name, MODELS[DEFAULT_MODEL])`.  The inner `getD` default is
unreachable because `DEFAULT_MODEL` is a key of `MODELS`. -/
def get_model_info (model_name : String) : ModelInfo :=
  (alGet MODELS model_name).getD
    ((alGet MODELS DEFAULT_MODEL).getD ⟨200000, "Claude 3.5 Haiku", 8 / 10 ^ 7, 4 / 10 ^ 6⟩)

structure TokenTrackingCfg where
  track_per_project : Bool
  track_per_message : Bool
  track_aggregated : Bool
  usage_file : String
  max_detailed_entries : Nat

/-- The `TOKEN_TRACKING` settings of `constants.py` (lines 47-63). -/
def TOKEN_TRACKING : TokenTrackingCfg :=
  ⟨true, true, true, "token_usage.json", 1000⟩

structure ModelStats where
  input_tokens : Int
  output_tokens : Int
  cost : ℚ
  messages : Int

structure AggregatedStats where
  total_input_tokens : Int
  total_output_tokens : Int
  total_cost : ℚ
  total_messages : Int
  models_used : List (String × ModelStats)
  created_at : String
  last_updated : String

structure ProjectStats where
  total_input_tokens : Int
  total_output_tokens : Int
  total_cost : ℚ
  total_messages : Int
  models_used : List (String × ModelStats)
  created_at : String
  last_updated : String

structure LogEntry where
  timestamp : String
  project : String
  model : String
  input_tokens : Int
  output_tokens : Int
  total_tokens : Int
  input_cost : ℚ
  output_cost : ℚ
  total_cost : ℚ
  user_message_length : Nat
  assistant_response_length : Nat

/-- The token-usage store (`token_usage.json`) as maintained by
`TokenTracker.ensure_usage_file` and mutated by `track_message_tokens`. -/
structure UsageData where
  aggregated : AggregatedStats
  projects : List (String × ProjectStats)
  detailed_logs : List LogEntry

/-- Model of `TokenTracker.track_message_tokens` (token_tracker.py, lines
52-160): update the aggregated stats, the per-model stats, the per-project
stats, append a detailed log entry when per-message tracking is on —
truncating to the most recent `max_detailed_entries` entries when the list
grows past the cap — and return the per-message summary.
`datetime.now().isoformat()` is passed in as `now`. -/
def track_message_tokens (project_name model_name : String)
    (input_tokens output_tokens : Int) (user_message assistant_response : String)
    (now : String) (data : UsageData) :
    UsageData × (Int × Int × Int × ℚ × String) :=
  let model_info := get_model_info model_name
  let input_cost : ℚ := input_tokens * model_info.cost_per_input_token
  let output_cost : ℚ := output_tokens * model_info.cost_per_output_token
  let total_cost : ℚ := input_cost + output_cost
  let agg0 := data.aggregated
  let agg1 : AggregatedStats :=
    ⟨agg0.total_input_tokens + input_tokens, agg0.total_output_tokens + output_tokens,
     agg0.total_cost + total_cost, agg0.total_messages + 1,
     agg0.models_used, agg0.created_at, now⟩
  let ms0 : ModelStats := (alGet agg1.models_used model_name).getD ⟨0, 0, 0, 0⟩
  let ms1 : ModelStats :=
    ⟨ms0.input_tokens + input_tokens, ms0.output_tokens + output_tokens,
     ms0.cost + total_cost, ms0.messages + 1⟩
  let agg2 : AggregatedStats :=
    ⟨agg1.total_input_tokens, agg1.total_output_tokens, agg1.total_cost,
     agg1.total_messages, alSet agg1.models_used model_name ms1,
     agg1.created_at, agg1.last_updated⟩
  let proj0 : ProjectStats :=
    (alGet data.projects project_name).getD ⟨0, 0, 0, 0, [], now, now⟩
  let proj1 : ProjectStats :=
    ⟨proj0.total_input_tokens + input_tokens, proj0.total_output_tokens + output_tokens,
     proj0.total_cost + total_cost, proj0.total_messages + 1,
     proj0.models_used, proj0.created_at, now⟩
  let pms0 : ModelStats := (alGet proj1.models_used model_name).getD ⟨0, 0, 0, 0⟩
  let pms1 : ModelStats :=
    ⟨pms0.input_tokens + input_tokens, pms0.output_tokens + output_tokens,
     pms0.cost + total_cost, pms0.messages + 1⟩
  let proj2 : ProjectStats :=
    ⟨proj1.total_input_tokens, proj1.total_output_tokens, proj1.total_cost,
     proj1.total_messages, alSet proj1.models_used model_name pms1,
     proj1.created_at, proj1.last_updated⟩
  let logs1 : List LogEntry :=
    if TOKEN_TRACKING.track_per_message then
      let entry : LogEntry :=
        ⟨now, project_name, model_name, input_tokens, output_tokens,
         input_tokens + output_tokens, input_cost, output_cost, total_cost,
         user_message.length, assistant_response.length⟩
      let appended := data.detailed_logs ++ [entry]
      if appended.length > TOKEN_TRACKING.max_detailed_entries then
        appended.drop (appended.length - TOKEN_TRACKING.max_detailed_entries)
      else appended
    else data.detailed_logs
  (⟨agg2, alSet data.projects project_name proj2, logs1⟩,
   (input_tokens, output_tokens, input_tokens + output_tokens, total_cost, model_name))

theorem capList_le {α : Type} (l : List α) (cap : Nat) :
    (if l.length > cap then l.drop (l.length - cap) else l).length ≤ cap := by
  by_cases h : l.length > cap
  · rw [if_pos h]
    simp only [List.length_drop]
    omega
  · rw [if_neg h]
    omega

theorem capList_suffix {α : Type} (l : List α) (cap : Nat) :
    (if l.length > cap then l.drop (l.length - cap) else l) <:+ l := by
  by_cases h : l.length > cap
  · rw [if_pos h]
    exact List.drop_suffix _ _
  · rw [if_neg h]

/-- C10: after every `track_message_tokens` call (per-message tracking is
enabled in `TOKEN_TRACKING`), the stored `detailed_logs` list holds at most
`max_detailed_entries` entries, and it is a suffix — the most recent entries —
of the old list with the new entry appended. -/
theorem detailed_logs_bounded_c10 (project model : String) (inTok outTok : Int)
    (um ar now : String) (data : UsageData) :
    ((track_message_tokens project model inTok outTok um ar now data).1).detailed_logs.length ≤
      TOKEN_TRACKING.max_detailed_entries ∧
    ∃ entry, ((track_message_tokens project model inTok outTok um ar now data).1).detailed_logs
      <:+ data.detailed_logs ++ [entry] := by
  refine ⟨?_, ?_⟩
  · simp only [track_message_tokens, TOKEN_TRACKING]
    exact capList_le _ _
  · simp only [track_message_tokens, TOKEN_TRACKING]
    exact ⟨_, capList_suffix _ _⟩

/-! ## Serialization: `write_json` / `read_json` (C4)

`write_json` runs `json.dump(data, f, indent=2, ensure_ascii=False)`;
`read_json` runs `json.load(f)`.  The encoder below reproduces the dump
byte-for-byte for the modelled `Json` values (two-space indentation,
`", "`/`","` separators, the C-encoder's string escaping with
`ensure_ascii=False`); the decoder is a recursive-descent JSON parser
accepting the grammar `json.load` accepts over these values (whitespace
`' '`, `'\t'`, `'\n'`, `'\r'`; strings with the standard escapes; integer
numbers; floats are outside the embedding). -/

/-- Lowercase hexadecimal digit, as `'\u%04x' % code` formats one nibble. -/
def hexDigitChar (n : Nat) : Char :=
  if n < 10 then Char.ofNat (48 + n) else Char.ofNat (87 + n)

def digitChar (n : Nat) : Char := Char.ofNat (48 + n)

/-- Decimal digits of a natural number, most significant first (`repr(n)`). -/
def natChars (n : Nat) : List Char :=
  if n = 0 then ['0'] else (Nat.digits 10 n).reverse.map digitChar

/-- Decimal representation of an integer (`repr` of a Python int). -/
def intChars : Int → List Char
  | .ofNat n => natChars n
  | .negSucc m => '-' :: natChars (m + 1)

/-- Escape of one character by the `ensure_ascii=False` JSON encoder:
`"`, `\\`, `\b`, `\f`, `\n`, `\r`, `\t`, `\u00XX` for other control
characters, and every other character written raw. -/
def escapeChar (c : Char) : List Char :=
  if c = '"' then ['\\', '"']
  else if c = '\\' then ['\\', '\\']
  else if c = Char.ofNat 8 then ['\\', 'b']
  else if c = Char.ofNat 12 then ['\\', 'f']
  else if c = '\n' then ['\\', 'n']
  else if c = Char.ofNat 13 then ['\\', 'r']
  else if c = '\t' then ['\\', 't']
  else if c.toNat < 32 then
    ['\\', 'u', '0', '0', hexDigitChar (c.toNat / 16), hexDigitChar (c.toNat % 16)]
  else [c]

def escapeList : List Char → List Char
  | [] => []
  | c :: cs => escapeChar c ++ escapeList cs

/-- A JSON string literal: `"` + escaped body + `"`. -/
def encStr (s : String) : List Char := '"' :: (escapeList s.toList ++ ['"'])

/-- The newline-plus-indentation the encoder emits before an element at
nesting level `lvl` when `indent=2`. -/
def nlIndent (lvl : Nat) : List Char := '\n' :: List.replicate (2 * lvl) ' '

mutual

/-- `json.dump(v, f, indent=2, ensure_ascii=False)` at nesting level `lvl`. -/
def encVal : Json → Nat → List Char
  | .null, _ => ['n', 'u', 'l', 'l']
  | .bool true, _ => ['t', 'r', 'u', 'e']
  | .bool false, _ => ['f', 'a', 'l', 's', 'e']
  | .num n, _ => intChars n
  | .str s, _ => encStr s
  | .arr [], _ => ['[', ']']
  | .arr (x :: xs), lvl =>
    '[' :: (nlIndent (lvl + 1) ++ encVal x (lvl + 1) ++ encItems xs (lvl + 1) ++
      nlIndent lvl ++ [']'])
  | .obj [], _ => ['{', '}']
  | .obj ((k, v) :: ms), lvl =>
    '{' :: (nlIndent (lvl + 1) ++ encStr k ++ ':' :: ' ' :: encVal v (lvl + 1) ++
      encMembers ms (lvl + 1) ++ nlIndent lvl ++ ['}'])

/-- The remaining array items, each preceded by `,` and the newline indent. -/
def encItems : List Json → Nat → List Char
  | [], _ => []
  | x :: xs, lvl => ',' :: (nlIndent lvl ++ encVal x lvl ++ encItems xs lvl)

/-- The remaining object members, each preceded by `,` and the newline
indent, with the `": "` key separator. -/
def encMembers : List (String × Json) → Nat → List Char
  | [], _ => []
  | (k, v) :: ms, lvl =>
    ',' :: (nlIndent lvl ++ encStr k ++ ':' :: ' ' :: encVal v lvl ++ encMembers ms lvl)

end

/-- The file content produced by `AgentCommunication.write_json` for a
document (json.dump with `indent=2`, `ensure_ascii=False`). -/
def json_dumps (d : Json) : String := String.mk (encVal d 0)

/-- The whitespace characters `json.load` skips between tokens. -/
def isWsChar (c : Char) : Bool :=
  c = ' ' || c = '\t' || c = '\n' || c = Char.ofNat 13

def skipWs : List Char → List Char
  | [] => []
  | c :: cs => if isWsChar c then skipWs cs else c :: cs

/-- Value of a hexadecimal digit. -/
def hexVal (c : Char) : Option Nat :=
  if '0' ≤ c ∧ c ≤ '9' then some (c.toNat - 48)
  else if 'a' ≤ c ∧ c ≤ 'f' then some (c.toNat - 87)
  else if 'A' ≤ c ∧ c ≤ 'F' then some (c.toNat - 55)
  else none

/-- The single-character escapes of the JSON grammar. -/
def unescapeChar (e : Char) : Option Char :=
  if e = '"' then some '"'
  else if e = '\\' then some '\\'
  else if e = '/' then some '/'
  else if e = 'b' then some (Char.ofNat 8)
  else if e = 'f' then some (Char.ofNat 12)
  else if e = 'n' then some '\n'
  else if e = 'r' then some (Char.ofNat 13)
  else if e = 't' then some '\t'
  else none

/-- Parse the body of a string literal after the opening quote, strict mode:
raw control characters are rejected, escapes are decoded, the closing quote
ends the string.  Returns the decoded characters and the rest of the input. -/
def parseStringBody : List Char → Option (List Char × List Char)
  | [] => none
  | c :: cs =>
    if c = '"' then some ([], cs)
    else if c = '\\' then
      match cs with
      | [] => none
      | e :: cs2 =>
        if e = 'u' then
          match cs2 with
          | h1 :: h2 :: h3 :: h4 :: cs6 =>
            match hexVal h1, hexVal h2, hexVal h3, hexVal h4 with
            | some a, some b, some c3, some d =>
              match parseStringBody cs6 with
              | some (s, rest) =>
                some (Char.ofNat (4096 * a + 256 * b + 16 * c3 + d) :: s, rest)
              | none => none
            | _, _, _, _ => none
          | _ => none
        else
          match unescapeChar e with
          | some u =>
            match parseStringBody cs2 with
            | some (s, rest) => some (u :: s, rest)
            | none => none
          | none => none
    else if c.toNat < 32 then none
    else
      match parseStringBody cs with
      | some (s, rest) => some (c :: s, rest)
      | none => none

def digitVal (c : Char) : Nat := c.toNat - 48

/-- Consume a maximal run of decimal digits, folding them onto `acc`. -/
def parseDigits : List Char → Nat → Nat × List Char
  | [], acc => (acc, [])
  | c :: cs, acc =>
    if c.isDigit then parseDigits cs (10 * acc + digitVal c) else (acc, c :: cs)

/-- The digits of an integer numeral after its first digit `d`, per the JSON
number grammar `int = 0 | [1-9][0-9]*` that `json.load` enforces: a numeral
whose first digit is `0` is the single digit `0` and consumes nothing
further, so `01` is never read as one numeral. -/
def parseIntTail (d : Char) (ds : List Char) : Nat × List Char :=
  if d = '0' then (0, ds) else parseDigits ds (digitVal d)

mutual

/-- Recursive-descent parser for one JSON value, modelling `json.load`
restricted to the embedded value space (integer numbers).  `fuel` bounds the
nesting depth; every recursive call spends one unit. -/
def parseVal : Nat → List Char → Option (Json × List Char)
  | 0, _ => none
  | fuel + 1, s =>
    match skipWs s with
    | [] => none
    | c :: cs =>
      if c = '{' then
        match skipWs cs with
        | [] => none
        | c2 :: cs2 =>
          if c2 = '}' then some (.obj [], cs2) else parseMembers fuel (c2 :: cs2)
      else if c = '[' then
        match skipWs cs with
        | [] => none
        | c2 :: cs2 =>
          if c2 = ']' then some (.arr [], cs2) else parseItems fuel (c2 :: cs2)
      else if c = '"' then
        match parseStringBody cs with
        | some (body, rest) => some (.str (String.mk body), rest)
        | none => none
      else if c = 't' then
        match cs with
        | 'r' :: 'u' :: 'e' :: rest => some (.bool true, rest)
        | _ => none
      else if c = 'f' then
        match cs with
        | 'a' :: 'l' :: 's' :: 'e' :: rest => some (.bool false, rest)
        | _ => none
      else if c = 'n' then
        match cs with
        | 'u' :: 'l' :: 'l' :: rest => some (.null, rest)
        | _ => none
      else if c = '-' then
        match cs with
        | d :: ds =>
          if d.isDigit then
            match parseIntTail d ds with
            | (n, rest) => some (.num (-(n : Int)), rest)
          else none
        | [] => none
      else if c.isDigit then
        match parseIntTail c cs with
        | (n, rest) => some (.num (n : Int), rest)
      else none

/-- Parse `value (',' value)* ']'` inside a non-empty array literal. -/
def parseItems : Nat → List Char → Option (Json × List Char)
  | 0, _ => none
  | fuel + 1, s =>
    match parseVal fuel s with
    | some (v, rest) =>
      match skipWs rest with
      | [] => none
      | c2 :: rest2 =>
        if c2 = ',' then
          match parseItems fuel rest2 with
          | some (.arr vs, rest3) => some (.arr (v :: vs), rest3)
          | _ => none
        else if c2 = ']' then some (.arr [v], rest2)
        else none
    | none => none

/-- Parse `string ':' value (',' member)* '}'` inside a non-empty object
literal. -/
def parseMembers : Nat → List Char → Option (Json × List Char)
  | 0, _ => none
  | fuel + 1, s =>
    match skipWs s with
    | [] => none
    | c0 :: cs =>
      if c0 = '"' then
        match parseStringBody cs with
        | some (key, rest) =>
          match skipWs rest with
          | [] => none
          | c1 :: rest2 =>
            if c1 = ':' then
              match parseVal fuel rest2 with
              | some (v, rest3) =>
                match skipWs rest3 with
                | [] => none
                | c3 :: rest4 =>
                  if c3 = ',' then
                    match parseMembers fuel rest4 with
                    | some (.obj ms, rest5) => some (.obj ((String.mk key, v) :: ms), rest5)
                    | _ => none
                  else if c3 = '}' then some (.obj [(String.mk key, v)], rest4)
                  else none
              | none => none
            else none
        | none => none
      else none

end

/-- The document `AgentCommunication.read_json` yields from a file holding
`s` (`json.load`; `none` models `json.JSONDecodeError`, including trailing
garbage after the value). -/
def json_loads (s : String) : Option Json :=
  match parseVal (s.length + 1) s.toList with
  | some (v, rest) => if skipWs rest = [] then some v else none
  | none => none

/-! ### Round-trip proof: whitespace and character lemmas -/

theorem skipWs_cons_of_not (c : Char) (s : List Char) (h : isWsChar c = false) :
    skipWs (c :: s) = c :: s := by
  rw [skipWs, h]
  simp

theorem skipWs_replicate_space (n : Nat) (s : List Char) :
    skipWs (List.replicate n ' ' ++ s) = skipWs s := by
  induction n with
  | zero => rfl
  | succ m ih =>
    rw [List.replicate_succ, List.cons_append, skipWs]
    simp only [isWsChar]
    simp [ih]

theorem skipWs_nlIndent (l : Nat) (s : List Char) :
    skipWs (nlIndent l ++ s) = skipWs s := by
  rw [nlIndent, List.cons_append, skipWs]
  simp only [isWsChar]
  simp [skipWs_replicate_space]

theorem parseVal_eq_of_skipWs (fuel : Nat) (s t : List Char) (h : skipWs s = skipWs t) :
    parseVal fuel s = parseVal fuel t := by
  cases fuel with
  | zero => rfl
  | succ f => rw [parseVal, parseVal, h]

theorem parseVal_nlIndent (fuel l : Nat) (s : List Char) :
    parseVal fuel (nlIndent l ++ s) = parseVal fuel s :=
  parseVal_eq_of_skipWs fuel _ _ (skipWs_nlIndent l s)

theorem skipWs_skipWs (s : List Char) : skipWs (skipWs s) = skipWs s := by
  induction s with
  | nil => rfl
  | cons c cs ih =>
    by_cases h : isWsChar c = true
    · rw [skipWs, if_pos h, ih]
    · rw [skipWs, if_neg h, skipWs, if_neg h]

theorem parseItems_nlIndent (fuel l : Nat) (s : List Char) :
    parseItems fuel (nlIndent l ++ s) = parseItems fuel s := by
  cases fuel with
  | zero => rfl
  | succ f => rw [parseItems, parseItems, parseVal_nlIndent]

theorem parseMembers_nlIndent (fuel l : Nat) (s : List Char) :
    parseMembers fuel (nlIndent l ++ s) = parseMembers fuel s := by
  cases fuel with
  | zero => rfl
  | succ f => rw [parseMembers, parseMembers, skipWs_nlIndent]

theorem hexVal_hexDigitChar (n : Nat) (h : n < 16) : hexVal (hexDigitChar n) = some n := by
  interval_cases n <;> decide

theorem psb_quote (X : List Char) : parseStringBody ('"' :: X) = some ([], X) := by
  rw [parseStringBody.eq_def]
  simp only [reduceIte]

theorem psb_escQuote (X : List Char) : parseStringBody ('\\' :: '"' :: X) =
    (parseStringBody X).map (fun p => ('"' :: p.1, p.2)) := by
  rw [parseStringBody.eq_def]
  simp only [reduceIte, unescapeChar]
  cases parseStringBody X with
  | none => rfl
  | some p => rfl

theorem psb_escBack (X : List Char) : parseStringBody ('\\' :: '\\' :: X) =
    (parseStringBody X).map (fun p => ('\\' :: p.1, p.2)) := by
  rw [parseStringBody.eq_def]
  simp only [reduceIte, unescapeChar]
  cases parseStringBody X with
  | none => rfl
  | some p => rfl

theorem psb_escB (X : List Char) : parseStringBody ('\\' :: 'b' :: X) =
    (parseStringBody X).map (fun p => (Char.ofNat 8 :: p.1, p.2)) := by
  rw [parseStringBody.eq_def]
  simp only [reduceIte, unescapeChar]
  cases parseStringBody X with
  | none => rfl
  | some p => rfl

theorem psb_escF (X : List Char) : parseStringBody ('\\' :: 'f' :: X) =
    (parseStringBody X).map (fun p => (Char.ofNat 12 :: p.1, p.2)) := by
  rw [parseStringBody.eq_def]
  simp only [reduceIte, unescapeChar]
  cases parseStringBody X with
  | none => rfl
  | some p => rfl

theorem psb_escN (X : List Char) : parseStringBody ('\\' :: 'n' :: X) =
    (parseStringBody X).map (fun p => ('\n' :: p.1, p.2)) := by
  rw [parseStringBody.eq_def]
  simp only [reduceIte, unescapeChar]
  cases parseStringBody X with
  | none => rfl
  | some p => rfl

theorem psb_escR (X : List Char) : parseStringBody ('\\' :: 'r' :: X) =
    (parseStringBody X).map (fun p => (Char.ofNat 13 :: p.1, p.2)) := by
  rw [parseStringBody.eq_def]
  simp only [reduceIte, unescapeChar]
  cases parseStringBody X with
  | none => rfl
  | some p => rfl

theorem psb_escT (X : List Char) : parseStringBody ('\\' :: 't' :: X) =
    (parseStringBody X).map (fun p => ('\t' :: p.1, p.2)) := by
  rw [parseStringBody.eq_def]
  simp only [reduceIte, unescapeChar]
  cases parseStringBody X with
  | none => rfl
  | some p => rfl

theorem psb_escU (n : Nat) (hn : n < 32) (X : List Char) :
    parseStringBody ('\\' :: 'u' :: '0' :: '0' ::
        hexDigitChar (n / 16) :: hexDigitChar (n % 16) :: X) =
      (parseStringBody X).map (fun p => (Char.ofNat n :: p.1, p.2)) := by
  rw [parseStringBody.eq_def]
  simp only [reduceIte]
  rw [show hexVal '0' = some 0 from rfl,
    hexVal_hexDigitChar _ (by omega), hexVal_hexDigitChar _ (by omega)]
  have harith : 4096 * 0 + 256 * 0 + 16 * (n / 16) + n % 16 = n := by omega
  simp only [harith]
  cases parseStringBody X with
  | none => rfl
  | some p => rfl

theorem psb_raw (c : Char) (X : List Char) (h1 : ¬ c = '"') (h2 : ¬ c = '\\')
    (h3 : ¬ c.toNat < 32) : parseStringBody (c :: X) =
    (parseStringBody X).map (fun p => (c :: p.1, p.2)) := by
  rw [parseStringBody.eq_def]
  simp only [if_neg h1, if_neg h2, if_neg h3]
  cases parseStringBody X with
  | none => rfl
  | some p => rfl

/-- Round trip of the string escaping: the parser decodes exactly the escaped
body and stops at the closing quote. -/
theorem parseStringBody_escape (s : List Char) (rest : List Char) :
    parseStringBody (escapeList s ++ '"' :: rest) = some (s, rest) := by
  induction s with
  | nil =>
    rw [escapeList, List.nil_append]
    exact psb_quote rest
  | cons c cs ih =>
    rw [escapeList, List.append_assoc]
    by_cases h1 : c = '"'
    · subst h1
      rw [show escapeChar '"' = ['\\', '"'] from rfl]
      simp only [List.cons_append, List.nil_append]
      rw [psb_escQuote, ih]
      rfl
    · by_cases h2 : c = '\\'
      · subst h2
        rw [show escapeChar '\\' = ['\\', '\\'] from rfl]
        simp only [List.cons_append, List.nil_append]
        rw [psb_escBack, ih]
        rfl
      · by_cases h3 : c = Char.ofNat 8
        · subst h3
          rw [show escapeChar (Char.ofNat 8) = ['\\', 'b'] from rfl]
          simp only [List.cons_append, List.nil_append]
          rw [psb_escB, ih]
          rfl
        · by_cases h4 : c = Char.ofNat 12
          · subst h4
            rw [show escapeChar (Char.ofNat 12) = ['\\', 'f'] from rfl]
            simp only [List.cons_append, List.nil_append]
            rw [psb_escF, ih]
            rfl
          · by_cases h5 : c = '\n'
            · subst h5
              rw [show escapeChar '\n' = ['\\', 'n'] from rfl]
              simp only [List.cons_append, List.nil_append]
              rw [psb_escN, ih]
              rfl
            · by_cases h6 : c = Char.ofNat 13
              · subst h6
                rw [show escapeChar (Char.ofNat 13) = ['\\', 'r'] from rfl]
                simp only [List.cons_append, List.nil_append]
                rw [psb_escR, ih]
                rfl
              · by_cases h7 : c = '\t'
                · subst h7
                  rw [show escapeChar '\t' = ['\\', 't'] from rfl]
                  simp only [List.cons_append, List.nil_append]
                  rw [psb_escT, ih]
                  rfl
                · by_cases h8 : c.toNat < 32
                  · rw [escapeChar, if_neg h1, if_neg h2, if_neg h3, if_neg h4,
                      if_neg h5, if_neg h6, if_neg h7, if_pos h8]
                    simp only [List.cons_append, List.nil_append]
                    rw [psb_escU c.toNat h8, ih, Char.ofNat_toNat]
                    rfl
                  · rw [escapeChar, if_neg h1, if_neg h2, if_neg h3, if_neg h4,
                      if_neg h5, if_neg h6, if_neg h7, if_neg h8]
                    simp only [List.cons_append, List.nil_append]
                    rw [psb_raw c _ h1 h2 h8, ih]
                    rfl

/-! ### Round-trip proof: numbers -/

/-- The input continues with something that cannot extend a number token
(every printed context: `,`, `]`, the newline of the indent, or the end). -/
def noDigitHead : List Char → Prop
  | [] => True
  | c :: _ => c.isDigit = false

theorem digitChar_facts (d : Nat) (hd : d < 10) :
    (digitChar d).isDigit = true ∧ digitVal (digitChar d) = d ∧
    isWsChar (digitChar d) = false ∧
    digitChar d ≠ '{' ∧ digitChar d ≠ '[' ∧ digitChar d ≠ '"' ∧
    digitChar d ≠ 't' ∧ digitChar d ≠ 'f' ∧ digitChar d ≠ 'n' ∧
    digitChar d ≠ '-' ∧ digitChar d ≠ ']' ∧ digitChar d ≠ '}' := by
  interval_cases d <;> exact ⟨rfl, rfl, rfl, by decide, by decide, by decide,
    by decide, by decide, by decide, by decide, by decide, by decide⟩

theorem parseDigits_append (l rest : List Char) (acc : Nat)
    (hall : ∀ c ∈ l, c.isDigit = true) (hrest : noDigitHead rest) :
    parseDigits (l ++ rest) acc = (l.foldl (fun a c => 10 * a + digitVal c) acc, rest) := by
  induction l generalizing acc with
  | nil =>
    cases rest with
    | nil => rfl
    | cons c cs =>
      rw [List.nil_append, parseDigits,
        if_neg (by rw [show c.isDigit = false from hrest]; simp)]
      rfl
  | cons c cs ih =>
    rw [List.cons_append, parseDigits, if_pos (hall c (List.mem_cons_self _ _)),
      List.foldl_cons]
    exact ih _ (fun x hx => hall x (List.mem_cons_of_mem _ hx))

theorem foldl_digitChars (L : List Nat) (hL : ∀ d ∈ L, d < 10) (acc : Nat) :
    (L.map digitChar).foldl (fun a c => 10 * a + digitVal c) acc =
      L.foldl (fun a d => 10 * a + d) acc := by
  induction L generalizing acc with
  | nil => rfl
  | cons d ds ih =>
    rw [List.map_cons, List.foldl_cons, List.foldl_cons,
      (digitChar_facts d (hL d (List.mem_cons_self _ _))).2.1]
    exact ih (fun x hx => hL x (List.mem_cons_of_mem _ hx)) _

theorem foldr_ofDigits (L : List Nat) :
    L.foldr (fun d r => 10 * r + d) 0 = Nat.ofDigits 10 L := by
  induction L with
  | nil => simp [Nat.ofDigits]
  | cons d ds ih =>
    rw [List.foldr_cons, ih, Nat.ofDigits_cons]
    omega

theorem natChars_all_digits (n : Nat) : ∀ c ∈ natChars n, c.isDigit = true := by
  intro c hc
  rw [natChars] at hc
  by_cases hn : n = 0
  · rw [if_pos hn] at hc
    simp only [List.mem_singleton] at hc
    subst hc
    rfl
  · rw [if_neg hn] at hc
    simp only [List.mem_map, List.mem_reverse] at hc
    obtain ⟨d, hd, rfl⟩ := hc
    exact (digitChar_facts d (Nat.digits_lt_base (by norm_num) hd)).1

/-- Parsing the printed decimal digits of `n` recovers `n` and stops at the
first non-digit. -/
theorem natChars_parse (n : Nat) (rest : List Char) (hrest : noDigitHead rest) :
    parseDigits (natChars n ++ rest) 0 = (n, rest) := by
  rw [parseDigits_append _ _ _ (natChars_all_digits n) hrest]
  by_cases hn : n = 0
  · subst hn
    rfl
  · rw [natChars, if_neg hn,
      foldl_digitChars _ (fun d hd => Nat.digits_lt_base (by norm_num)
        (List.mem_reverse.mp hd)) 0]
    rw [List.foldl_reverse]
    have : (Nat.digits 10 n).foldr (fun x y => 10 * y + x) 0 =
        (Nat.digits 10 n).foldr (fun d r => 10 * r + d) 0 := rfl
    rw [this, foldr_ofDigits, Nat.ofDigits_digits]

theorem natChars_head (n : Nat) : ∃ d t, natChars n = digitChar d :: t ∧ d < 10 := by
  by_cases hn : n = 0
  · subst hn
    exact ⟨0, [], rfl, by norm_num⟩
  · rw [natChars, if_neg hn]
    cases hrev : (Nat.digits 10 n).reverse with
    | nil =>
      exact absurd (List.reverse_eq_nil_iff.mp hrev)
        (Nat.digits_ne_nil_iff_ne_zero.mpr hn)
    | cons d ds =>
      refine ⟨d, ds.map digitChar, by rw [List.map_cons], ?_⟩
      have hd : d ∈ Nat.digits 10 n := List.mem_reverse.mp (hrev ▸ List.mem_cons_self d ds)
      exact Nat.digits_lt_base (by norm_num) hd

/-- A positive number prints with a nonzero leading digit (its most
significant decimal digit). -/
theorem natChars_head_pos (n : Nat) (hn : n ≠ 0) :
    ∃ d t, natChars n = digitChar d :: t ∧ d < 10 ∧ d ≠ 0 := by
  rw [natChars, if_neg hn]
  cases hrev : (Nat.digits 10 n).reverse with
  | nil =>
    exact absurd (List.reverse_eq_nil_iff.mp hrev)
      (Nat.digits_ne_nil_iff_ne_zero.mpr hn)
  | cons d ds =>
    refine ⟨d, ds.map digitChar, by rw [List.map_cons], ?_, ?_⟩
    · have hd : d ∈ Nat.digits 10 n := List.mem_reverse.mp (hrev ▸ List.mem_cons_self d ds)
      exact Nat.digits_lt_base (by norm_num) hd
    · have hne : Nat.digits 10 n ≠ [] := Nat.digits_ne_nil_iff_ne_zero.mpr hn
      have hdig : Nat.digits 10 n = ds.reverse ++ [d] := by
        rw [← List.reverse_reverse (Nat.digits 10 n), hrev, List.reverse_cons]
      have hlast : (Nat.digits 10 n).getLast hne = d := by
        rw [List.getLast_eq_getElem]
        simp [hdig]
      exact hlast ▸ Nat.getLast_digit_ne_zero 10 hn

/-- `digitChar` of a nonzero digit is not the character `0`. -/
theorem digitChar_ne_zeroChar (d : Nat) (hd : d < 10) (hd0 : d ≠ 0) :
    digitChar d ≠ '0' := by
  interval_cases d
  · exact absurd rfl hd0
  all_goals decide

/-! ### Round-trip proof: single values -/

mutual

/-- Fuel needed by `parseVal` to parse the printed form of a value (one unit
per recursive parser call). -/
def fuelNeed : Json → Nat
  | .arr xs => 1 + itemsFuel xs
  | .obj ms => 1 + membersFuel ms
  | .null => 1
  | .bool _ => 1
  | .num _ => 1
  | .str _ => 1

def itemsFuel : List Json → Nat
  | [] => 0
  | x :: xs => 1 + fuelNeed x + itemsFuel xs

def membersFuel : List (String × Json) → Nat
  | [] => 0
  | (_, v) :: ms => 1 + fuelNeed v + membersFuel ms

end

theorem parseVal_num (fuel : Nat) (n : Int) (rest : List Char) (hrest : noDigitHead rest) :
    parseVal (fuel + 1) (intChars n ++ rest) = some (.num n, rest) := by
  cases n with
  | ofNat m =>
    by_cases hm : m = 0
    · subst hm
      rw [show intChars (.ofNat 0) = ['0'] from rfl, List.singleton_append,
        parseVal.eq_def]
      rfl
    · obtain ⟨d, t, heq, hd, hd0⟩ := natChars_head_pos m hm
      obtain ⟨hdig, hval, hws, hbr1, hbr2, hbr3, hbr4, hbr5, hbr6, hbr7, hbr8, hbr9⟩ :=
        digitChar_facts d hd
      have hne0 : digitChar d ≠ '0' := digitChar_ne_zeroChar d hd hd0
      have hparse := natChars_parse m rest hrest
      rw [heq, List.cons_append, parseDigits, if_pos hdig, hval] at hparse
      rw [show intChars (.ofNat m) = natChars m from rfl, heq, List.cons_append,
        parseVal.eq_def]
      simp only []
      rw [skipWs_cons_of_not _ _ hws]
      simp only [if_neg hbr1, if_neg hbr2, if_neg hbr3, if_neg hbr4, if_neg hbr5,
        if_neg hbr6, if_neg hbr7, if_pos hdig]
      simp only [parseIntTail, if_neg hne0, hval]
      rw [show 10 * 0 + d = d from by omega] at hparse
      rw [hparse]
      rfl
  | negSucc m =>
    obtain ⟨d, t, heq, hd, hd0⟩ := natChars_head_pos (m + 1) (Nat.succ_ne_zero m)
    obtain ⟨hdig, hval, hws, hbr1, hbr2, hbr3, hbr4, hbr5, hbr6, hbr7, hbr8, hbr9⟩ :=
      digitChar_facts d hd
    have hne0 : digitChar d ≠ '0' := digitChar_ne_zeroChar d hd hd0
    have hparse := natChars_parse (m + 1) rest hrest
    rw [heq, List.cons_append, parseDigits, if_pos hdig, hval] at hparse
    rw [show intChars (.negSucc m) = '-' :: natChars (m + 1) from rfl, heq,
      List.cons_append, List.cons_append, parseVal.eq_def]
    simp only []
    rw [skipWs_cons_of_not _ _ (by decide)]
    simp only [reduceIte, if_pos hdig]
    simp only [parseIntTail, if_neg hne0, hval]
    rw [show 10 * 0 + d = d from by omega] at hparse
    rw [hparse]
    simp [Int.negSucc_eq]

/-- Every printed value starts with a non-whitespace character that is not a
closing bracket. -/
theorem encVal_head (d : Json) (lvl : Nat) :
    ∃ c t, encVal d lvl = c :: t ∧ isWsChar c = false ∧ c ≠ ']' ∧ c ≠ '}' := by
  cases d with
  | num n =>
    cases n with
    | ofNat m =>
      obtain ⟨d0, t, heq, hd0⟩ := natChars_head m
      obtain ⟨-, -, hws, -, -, -, -, -, -, -, hne1, hne2⟩ := digitChar_facts d0 hd0
      exact ⟨digitChar d0, t, by rw [show encVal (.num (.ofNat m)) lvl = natChars m
        from rfl, heq], hws, hne1, hne2⟩
    | negSucc m =>
      refine ⟨'-', _, rfl, ?_, ?_, ?_⟩ <;> decide
  | bool b =>
    cases b with
    | true => refine ⟨'t', _, rfl, ?_, ?_, ?_⟩ <;> decide
    | false => refine ⟨'f', _, rfl, ?_, ?_, ?_⟩ <;> decide
  | null => refine ⟨'n', _, rfl, ?_, ?_, ?_⟩ <;> decide
  | str s => refine ⟨'"', _, rfl, ?_, ?_, ?_⟩ <;> decide
  | arr xs =>
    cases xs with
    | nil => refine ⟨'[', _, rfl, ?_, ?_, ?_⟩ <;> decide
    | cons x xs' => refine ⟨'[', _, by rw [encVal], ?_, ?_, ?_⟩ <;> decide
  | obj ms =>
    cases ms with
    | nil => refine ⟨'{', _, rfl, ?_, ?_, ?_⟩ <;> decide
    | cons m ms' =>
      obtain ⟨k, v⟩ := m
      refine ⟨'{', _, by rw [encVal], ?_, ?_, ?_⟩ <;> decide

/-- The round-trip property of one value: parsing its printed form (at any
indentation level, with enough fuel, in any context that cannot extend a
number token) yields the value back and consumes exactly its characters. -/
def ParsesBack (d : Json) : Prop :=
  ∀ fuel lvl rest, fuelNeed d ≤ fuel → noDigitHead rest →
    parseVal fuel (encVal d lvl ++ rest) = some (d, rest)

theorem noDigitHead_nlIndent (l : Nat) (X : List Char) :
    noDigitHead (nlIndent l ++ X) := by
  show ('\n').isDigit = false
  rfl

theorem noDigitHead_comma (X : List Char) : noDigitHead (',' :: X) := by
  show (',').isDigit = false
  rfl

theorem parsesBack_null : ParsesBack .null := by
  intro fuel lvl rest hfuel hrest
  cases fuel with
  | zero => simp [fuelNeed] at hfuel
  | succ f =>
    rw [show encVal .null lvl = ['n', 'u', 'l', 'l'] from rfl]
    simp only [List.cons_append, List.nil_append]
    rw [parseVal.eq_def]
    simp only []
    rw [skipWs_cons_of_not _ _ (by decide)]
    simp only [Char.reduceEq, reduceIte]

theorem parsesBack_bool (b : Bool) : ParsesBack (.bool b) := by
  intro fuel lvl rest hfuel hrest
  cases fuel with
  | zero => simp [fuelNeed] at hfuel
  | succ f =>
    cases b with
    | true =>
      rw [show encVal (.bool true) lvl = ['t', 'r', 'u', 'e'] from rfl]
      simp only [List.cons_append, List.nil_append]
      rw [parseVal.eq_def]
      simp only []
      rw [skipWs_cons_of_not _ _ (by decide)]
      simp only [Char.reduceEq, reduceIte]
    | false =>
      rw [show encVal (.bool false) lvl = ['f', 'a', 'l', 's', 'e'] from rfl]
      simp only [List.cons_append, List.nil_append]
      rw [parseVal.eq_def]
      simp only []
      rw [skipWs_cons_of_not _ _ (by decide)]
      simp only [Char.reduceEq, reduceIte]

theorem parsesBack_num (n : Int) : ParsesBack (.num n) := by
  intro fuel lvl rest hfuel hrest
  cases fuel with
  | zero => simp [fuelNeed] at hfuel
  | succ f =>
    rw [show encVal (.num n) lvl = intChars n from rfl]
    exact parseVal_num f n rest hrest

theorem parsesBack_str (s : String) : ParsesBack (.str s) := by
  intro fuel lvl rest hfuel hrest
  cases fuel with
  | zero => simp [fuelNeed] at hfuel
  | succ f =>
    rw [show encVal (.str s) lvl = '"' :: (escapeList s.toList ++ ['"']) from rfl]
    simp only [List.cons_append, List.append_assoc, List.singleton_append]
    rw [parseVal.eq_def]
    simp only []
    rw [skipWs_cons_of_not _ _ (by decide)]
    simp only [Char.reduceEq, reduceIte]
    rw [parseStringBody_escape]
    simp only [List.nil_append]
    rfl

theorem parseVal_cons_ws (fuel : Nat) (c : Char) (s : List Char) (h : isWsChar c = true) :
    parseVal fuel (c :: s) = parseVal fuel s :=
  parseVal_eq_of_skipWs _ _ _ (by rw [skipWs, if_pos h])

theorem noDigitHead_encItems (xs : List Json) (lvl : Nat) (X : List Char)
    (hX : noDigitHead X) : noDigitHead (encItems xs lvl ++ X) := by
  cases xs with
  | nil =>
    rw [show encItems [] lvl = ([] : List Char) from by rw [encItems], List.nil_append]
    exact hX
  | cons y ys =>
    rw [show encItems (y :: ys) lvl =
      ',' :: (nlIndent lvl ++ encVal y lvl ++ encItems ys lvl) from by rw [encItems]]
    exact noDigitHead_comma _

theorem noDigitHead_encMembers (ms : List (String × Json)) (lvl : Nat) (X : List Char)
    (hX : noDigitHead X) : noDigitHead (encMembers ms lvl ++ X) := by
  cases ms with
  | nil =>
    rw [show encMembers [] lvl = ([] : List Char) from by rw [encMembers], List.nil_append]
    exact hX
  | cons m ms' =>
    obtain ⟨k2, v2⟩ := m
    rw [show encMembers ((k2, v2) :: ms') lvl =
      ',' :: (nlIndent lvl ++ encStr k2 ++ ':' :: ' ' :: encVal v2 lvl ++ encMembers ms' lvl)
      from by rw [encMembers]]
    exact noDigitHead_comma _

/-- Round trip of the items of a non-empty array literal. -/
theorem parseItems_round (lvl' : Nat) (xs : List Json) :
    ∀ (x : Json), ParsesBack x → (∀ y ∈ xs, ParsesBack y) →
    ∀ fuel lvl rest, 1 + fuelNeed x + itemsFuel xs ≤ fuel → noDigitHead rest →
      parseItems fuel (encVal x lvl ++ (encItems xs lvl ++ (nlIndent lvl' ++ ']' :: rest))) =
        some (.arr (x :: xs), rest) := by
  induction xs with
  | nil =>
    intro x hx hxs fuel lvl rest hfuel hrest
    cases fuel with
    | zero => omega
    | succ f =>
      rw [parseItems.eq_def]
      simp only []
      rw [show encItems [] lvl = ([] : List Char) from by rw [encItems], List.nil_append]
      rw [hx f lvl (nlIndent lvl' ++ ']' :: rest) (by omega) (noDigitHead_nlIndent lvl' _)]
      simp only []
      rw [skipWs_nlIndent, skipWs_cons_of_not _ _ (by decide)]
      rfl
  | cons y ys ih =>
    intro x hx hxs fuel lvl rest hfuel hrest
    simp only [itemsFuel] at hfuel
    cases fuel with
    | zero => omega
    | succ f =>
      rw [parseItems.eq_def]
      simp only []
      rw [show encItems (y :: ys) lvl =
        ',' :: (nlIndent lvl ++ encVal y lvl ++ encItems ys lvl) from by rw [encItems]]
      simp only [List.cons_append, List.append_assoc]
      rw [hx f lvl _ (by omega) (noDigitHead_comma _)]
      simp only []
      rw [skipWs_cons_of_not _ _ (by decide)]
      simp only [Char.reduceEq, reduceIte]
      rw [parseItems_nlIndent]
      rw [ih y (hxs y (List.mem_cons_self _ _))
        (fun z hz => hxs z (List.mem_cons_of_mem _ hz))
        f lvl rest (by omega) hrest]

/-- Round trip of the members of a non-empty object literal. -/
theorem parseMembers_round (lvl' : Nat) (ms : List (String × Json)) :
    ∀ (k : String) (v : Json), ParsesBack v → (∀ m ∈ ms, ParsesBack m.2) →
    ∀ fuel lvl rest, 1 + fuelNeed v + membersFuel ms ≤ fuel → noDigitHead rest →
      parseMembers fuel (encStr k ++ ':' :: ' ' :: encVal v lvl ++
          (encMembers ms lvl ++ (nlIndent lvl' ++ '}' :: rest))) =
        some (.obj ((k, v) :: ms), rest) := by
  induction ms with
  | nil =>
    intro k v hv hms fuel lvl rest hfuel hrest
    cases fuel with
    | zero => omega
    | succ f =>
      rw [parseMembers.eq_def]
      simp only []
      rw [show encStr k = '"' :: (escapeList k.toList ++ ['"']) from rfl]
      simp only [List.cons_append, List.append_assoc, List.singleton_append]
      rw [skipWs_cons_of_not _ _ (by decide)]
      simp only [Char.reduceEq, reduceIte]
      rw [parseStringBody_escape]
      simp only [List.nil_append]
      rw [skipWs_cons_of_not _ _ (by decide)]
      simp only [Char.reduceEq, reduceIte]
      rw [parseVal_cons_ws _ _ _ (by decide)]
      rw [show encMembers [] lvl = ([] : List Char) from by rw [encMembers],
        List.nil_append]
      rw [hv f lvl (nlIndent lvl' ++ '}' :: rest) (by omega) (noDigitHead_nlIndent lvl' _)]
      simp only []
      rw [skipWs_nlIndent, skipWs_cons_of_not _ _ (by decide)]
      simp only [Char.reduceEq, reduceIte]
      rfl
  | cons m ms' ih =>
    intro k v hv hms fuel lvl rest hfuel hrest
    obtain ⟨k2, v2⟩ := m
    simp only [membersFuel] at hfuel
    cases fuel with
    | zero => omega
    | succ f =>
      rw [parseMembers.eq_def]
      simp only []
      rw [show encStr k = '"' :: (escapeList k.toList ++ ['"']) from rfl]
      simp only [List.cons_append, List.append_assoc, List.singleton_append]
      rw [skipWs_cons_of_not _ _ (by decide)]
      simp only [Char.reduceEq, reduceIte]
      rw [parseStringBody_escape]
      simp only [List.nil_append]
      rw [skipWs_cons_of_not _ _ (by decide)]
      simp only [Char.reduceEq, reduceIte]
      rw [parseVal_cons_ws _ _ _ (by decide)]
      rw [show encMembers ((k2, v2) :: ms') lvl =
        ',' :: (nlIndent lvl ++ encStr k2 ++ ':' :: ' ' :: encVal v2 lvl ++ encMembers ms' lvl)
        from by rw [encMembers]]
      simp only [List.cons_append, List.append_assoc]
      rw [hv f lvl _ (by omega) (noDigitHead_comma _)]
      simp only []
      rw [skipWs_cons_of_not _ _ (by decide)]
      simp only [Char.reduceEq, reduceIte]
      rw [parseMembers_nlIndent]
      have hih := ih k2 v2 (hms (k2, v2) (List.mem_cons_self _ _))
        (fun z hz => hms z (List.mem_cons_of_mem _ hz)) f lvl rest (by omega) hrest
      simp only [List.cons_append, List.append_assoc] at hih
      rw [hih]
      rfl

theorem parsesBack_arr (xs : List Json) (hxs : ∀ x ∈ xs, ParsesBack x) :
    ParsesBack (.arr xs) := by
  intro fuel lvl rest hfuel hrest
  cases fuel with
  | zero => simp [fuelNeed] at hfuel
  | succ f =>
    cases xs with
    | nil =>
      rw [show encVal (.arr []) lvl = ['[', ']'] from rfl]
      simp only [List.cons_append, List.nil_append]
      rw [parseVal.eq_def]
      simp only []
      rw [skipWs_cons_of_not _ _ (by decide)]
      simp only [Char.reduceEq, reduceIte]
      rw [skipWs_cons_of_not _ _ (by decide)]
      simp only [Char.reduceEq, reduceIte]
    | cons x xs' =>
      simp only [fuelNeed, itemsFuel] at hfuel
      rw [show encVal (.arr (x :: xs')) lvl =
        '[' :: (nlIndent (lvl + 1) ++ encVal x (lvl + 1) ++ encItems xs' (lvl + 1) ++
          nlIndent lvl ++ [']']) from by rw [encVal]]
      simp only [List.cons_append, List.append_assoc, List.singleton_append]
      rw [parseVal.eq_def]
      simp only []
      rw [skipWs_cons_of_not _ _ (by decide)]
      simp only [Char.reduceEq, reduceIte]
      rw [skipWs_nlIndent]
      obtain ⟨c0, t0, heq, hws0, hne0, hne0b⟩ := encVal_head x (lvl + 1)
      rw [heq, List.cons_append, skipWs_cons_of_not _ _ hws0]
      simp only [if_neg hne0]
      rw [← List.cons_append, ← heq]
      exact parseItems_round lvl xs' x (hxs x (List.mem_cons_self _ _))
        (fun z hz => hxs z (List.mem_cons_of_mem _ hz)) f (lvl + 1) rest (by omega) hrest

theorem parsesBack_obj (ms : List (String × Json)) (hms : ∀ m ∈ ms, ParsesBack m.2) :
    ParsesBack (.obj ms) := by
  intro fuel lvl rest hfuel hrest
  cases fuel with
  | zero => simp [fuelNeed] at hfuel
  | succ f =>
    cases ms with
    | nil =>
      rw [show encVal (.obj []) lvl = ['{', '}'] from rfl]
      simp only [List.cons_append, List.nil_append]
      rw [parseVal.eq_def]
      simp only []
      rw [skipWs_cons_of_not _ _ (by decide)]
      simp only [Char.reduceEq, reduceIte]
      rw [skipWs_cons_of_not _ _ (by decide)]
      simp only [Char.reduceEq, reduceIte]
    | cons m ms' =>
      obtain ⟨k, v⟩ := m
      simp only [fuelNeed, membersFuel] at hfuel
      rw [show encVal (.obj ((k, v) :: ms')) lvl =
        '{' :: (nlIndent (lvl + 1) ++ encStr k ++ ':' :: ' ' :: encVal v (lvl + 1) ++
          encMembers ms' (lvl + 1) ++ nlIndent lvl ++ ['}']) from by rw [encVal]]
      simp only [List.cons_append, List.append_assoc, List.singleton_append]
      rw [parseVal.eq_def]
      simp only []
      rw [skipWs_cons_of_not _ _ (by decide)]
      simp only [Char.reduceEq, reduceIte]
      rw [skipWs_nlIndent]
      rw [show encStr k = '"' :: (escapeList k.toList ++ ['"']) from rfl]
      simp only [List.cons_append, List.append_assoc, List.singleton_append]
      rw [skipWs_cons_of_not _ _ (by decide)]
      simp only [Char.reduceEq, reduceIte]
      have hpm := parseMembers_round lvl ms' k v (hms (k, v) (List.mem_cons_self _ _))
        (fun z hz => hms z (List.mem_cons_of_mem _ hz)) f (lvl + 1) rest (by omega) hrest
      rw [show encStr k = '"' :: (escapeList k.toList ++ ['"']) from rfl] at hpm
      simp only [List.cons_append, List.append_assoc, List.singleton_append,
        List.nil_append] at hpm
      simp only [List.nil_append]
      rw [hpm]

/-- Every value round-trips: parsing the printed form gives it back. -/
theorem parsesBack_all : ∀ d, ParsesBack d :=
  json_ind ParsesBack parsesBack_null parsesBack_bool parsesBack_num parsesBack_str
    parsesBack_arr parsesBack_obj

theorem one_le_natChars_length (m : Nat) : 1 ≤ (natChars m).length := by
  obtain ⟨d, t, heq, hd⟩ := natChars_head m
  rw [heq]
  simp

theorem one_le_nlIndent_length (lvl : Nat) : 1 ≤ (nlIndent lvl).length := by
  rw [nlIndent]
  simp

theorem itemsFuel_le_length (xs : List Json) (lvl : Nat)
    (hxs : ∀ x ∈ xs, ∀ l, fuelNeed x ≤ (encVal x l).length) :
    itemsFuel xs ≤ (encItems xs lvl).length := by
  induction xs with
  | nil => simp [itemsFuel, encItems]
  | cons x xs ih =>
    have hx := hxs x (List.mem_cons_self _ _) lvl
    have hnl := one_le_nlIndent_length lvl
    have hxs2 := ih (fun z hz => hxs z (List.mem_cons_of_mem _ hz))
    rw [show encItems (x :: xs) lvl =
      ',' :: (nlIndent lvl ++ encVal x lvl ++ encItems xs lvl) from by rw [encItems]]
    simp only [itemsFuel, List.length_cons, List.length_append]
    omega

theorem membersFuel_le_length (ms : List (String × Json)) (lvl : Nat)
    (hms : ∀ m ∈ ms, ∀ l, fuelNeed m.2 ≤ (encVal m.2 l).length) :
    membersFuel ms ≤ (encMembers ms lvl).length := by
  induction ms with
  | nil => simp [membersFuel, encMembers]
  | cons m ms ih =>
    obtain ⟨k, v⟩ := m
    have hv : fuelNeed v ≤ (encVal v lvl).length := hms (k, v) (List.mem_cons_self _ _) lvl
    have hnl := one_le_nlIndent_length lvl
    have hms2 := ih (fun z hz => hms z (List.mem_cons_of_mem _ hz))
    rw [show encMembers ((k, v) :: ms) lvl =
      ',' :: (nlIndent lvl ++ encStr k ++ ':' :: ' ' :: encVal v lvl ++ encMembers ms lvl)
      from by rw [encMembers]]
    simp only [membersFuel, List.length_cons, List.length_append]
    omega

/-- The printed form is long enough to supply the fuel the parser needs. -/
theorem fuelNeed_le_length : ∀ d : Json, ∀ lvl, fuelNeed d ≤ (encVal d lvl).length := by
  apply json_ind (fun d => ∀ lvl, fuelNeed d ≤ (encVal d lvl).length)
  · intro lvl
    rw [show encVal .null lvl = ['n', 'u', 'l', 'l'] from rfl]
    simp [fuelNeed]
  · intro b lvl
    cases b with
    | true =>
      rw [show encVal (.bool true) lvl = ['t', 'r', 'u', 'e'] from rfl]
      simp [fuelNeed]
    | false =>
      rw [show encVal (.bool false) lvl = ['f', 'a', 'l', 's', 'e'] from rfl]
      simp [fuelNeed]
  · intro n lvl
    rw [show encVal (.num n) lvl = intChars n from rfl]
    cases n with
    | ofNat m =>
      have := one_le_natChars_length m
      simp only [fuelNeed, intChars]
      omega
    | negSucc m =>
      simp [fuelNeed, intChars]
  · intro s lvl
    rw [show encVal (.str s) lvl = encStr s from rfl, encStr]
    simp [fuelNeed]
  · intro xs hxs lvl
    cases xs with
    | nil =>
      rw [show encVal (.arr []) lvl = ['[', ']'] from rfl]
      simp [fuelNeed, itemsFuel]
    | cons x xs =>
      have hx := hxs x (List.mem_cons_self _ _) (lvl + 1)
      have hxs2 := itemsFuel_le_length xs (lvl + 1)
        (fun z hz => hxs z (List.mem_cons_of_mem _ hz))
      have hn1 := one_le_nlIndent_length (lvl + 1)
      have hn2 := one_le_nlIndent_length lvl
      rw [show encVal (.arr (x :: xs)) lvl =
        '[' :: (nlIndent (lvl + 1) ++ encVal x (lvl + 1) ++ encItems xs (lvl + 1) ++
          nlIndent lvl ++ [']']) from by rw [encVal]]
      simp only [fuelNeed, itemsFuel, List.length_cons, List.length_append,
        List.length_singleton]
      omega
  · intro ms hms lvl
    cases ms with
    | nil =>
      rw [show encVal (.obj []) lvl = ['{', '}'] from rfl]
      simp [fuelNeed, membersFuel]
    | cons m ms =>
      obtain ⟨k, v⟩ := m
      have hv : fuelNeed v ≤ (encVal v (lvl + 1)).length :=
        hms (k, v) (List.mem_cons_self _ _) (lvl + 1)
      have hms2 := membersFuel_le_length ms (lvl + 1)
        (fun z hz => hms z (List.mem_cons_of_mem _ hz))
      have hn1 := one_le_nlIndent_length (lvl + 1)
      have hn2 := one_le_nlIndent_length lvl
      rw [show encVal (.obj ((k, v) :: ms)) lvl =
        '{' :: (nlIndent (lvl + 1) ++ encStr k ++ ':' :: ' ' :: encVal v (lvl + 1) ++
          encMembers ms (lvl + 1) ++ nlIndent lvl ++ ['}']) from by rw [encVal]]
      simp only [fuelNeed, membersFuel, List.length_cons, List.length_append,
        List.length_singleton]
      omega

/-- `AgentCommunication.write_json`: the file content json.dump produces for a
document (`indent=2`, `ensure_ascii=False`). -/
def write_json (d : Json) : String := json_dumps d

/-- `AgentCommunication.read_json`: json.load of the stored file content. -/
def read_json (s : String) : Option Json := json_loads s

theorem json_loads_dumps (d : Json) : json_loads (json_dumps d) = some d := by
  have h := parsesBack_all d ((encVal d 0).length + 1) 0 []
    (le_trans (fuelNeed_le_length d 0) (Nat.le_succ _)) trivial
  rw [List.append_nil] at h
  unfold json_loads json_dumps
  simp only [show (String.mk (encVal d 0)).toList = encVal d 0 from rfl,
    show (String.mk (encVal d 0)).length = (encVal d 0).length from rfl, h]
  rfl

/-- C4: write followed immediately by read round-trips the document — for
every JSON document D, read_json (write_json D) parses back exactly D, and in
particular agrees with D at every field f. -/
theorem read_after_write_c4 (d : Json) :
    read_json (write_json d) = some d ∧
    ∀ f, ((read_json (write_json d)).bind fun x => dictGet x f) = dictGet d f := by
  have hmain : read_json (write_json d) = some d := json_loads_dumps d
  exact ⟨hmain, fun f => by rw [hmain]; rfl⟩

/-! ### Model-response parsing with hardcoded fallback (product_owner.py 86-106,
staff_engineer.py 141-171) -/

/-- The code points `str.strip()` removes: everything `str.isspace()` holds
of — tab through carriage return, the ASCII separators 28-31, space, NEL,
no-break space, and the Unicode space separators. -/
def isPyWs (c : Char) : Bool :=
  [9, 10, 11, 12, 13, 28, 29, 30, 31, 32, 133, 160, 5760, 8192, 8193, 8194,
    8195, 8196, 8197, 8198, 8199, 8200, 8201, 8202, 8232, 8233, 8239, 8287,
    12288].contains c.toNat

/-- `str.strip()` on a character list. -/
def stripList (l : List Char) : List Char :=
  ((l.dropWhile isPyWs).reverse.dropWhile isPyWs).reverse

/-- The three-backtick code-fence marker. -/
def fence : List Char := [Char.ofNat 96, Char.ofNat 96, Char.ofNat 96]

/-- The seven-character opening marker the agents strip from a fenced reply. -/
def fenceJson : List Char := fence ++ ['j', 's', 'o', 'n']

/-- The clean-up both agents apply to the model reply before `json.loads`:
strip, drop a leading seven-character fence marker (`response[7:]`), drop a
trailing fence (`response[:-3]`), strip again. -/
def cleanResponse (l : List Char) : List Char :=
  let r0 := stripList l
  let r1 := if r0.take 7 = fenceJson then r0.drop 7 else r0
  let r2 := if r1.drop (r1.length - 3) = fence ∧ 3 ≤ r1.length then
    r1.take (r1.length - 3) else r1
  stripList r2

/-- The hardcoded dictionary `interrogate_client_and_analyze` returns when
`json.loads` raises `JSONDecodeError` (product_owner.py 101-106). -/
def poFallback (task : String) : Json :=
  .obj [
    ("questions", .arr [.str "What is the expected number of concurrent users?",
                        .str "What are the main user roles?"]),
    ("assumptions", .arr [.str "Standard web application",
                          .str "Basic CRUD operations needed"]),
    ("specifications", .arr [.str ("Implement " ++ task ++ " with basic functionality")]),
    ("business_context",
      .str ("This feature will improve user productivity for " ++ task))]

/-- The hardcoded dictionary `question_and_architect` returns when `json.loads`
raises `JSONDecodeError` (staff_engineer.py 156-171). -/
def seFallback (stack : String) : Json :=
  .obj [
    ("technical_questions", .arr [.str "What is the expected data volume?",
                                  .str "How many concurrent connections?"]),
    ("architecture", .obj [
      ("components", .arr [.str "Backend API", .str "Frontend App", .str "Database"]),
      ("data_flow", .str "Standard client-server architecture"),
      ("apis", .arr [.str "REST API endpoints"])]),
    ("technology_decisions", .arr [.str ("Using " ++ stack ++ " as specified")]),
    ("complexity_analysis", .obj [
      ("high_risk", .arr [.str "Integration complexity"]),
      ("estimated_effort", .str "2-4 weeks"),
      ("technical_debt", .arr [.str "Potential performance bottlenecks"])]),
    ("implementation_phases", .arr [.str "Phase 1: Backend setup",
                                    .str "Phase 2: Frontend implementation"]),
    ("scalability_concerns", .arr [.str "Database performance under load"])]

/-- The parse step of `ProductOwnerAgent.interrogate_client_and_analyze`:
clean the reply, `json.loads` it, fall back to the hardcoded dictionary on a
decode error. Total: it never raises to its caller. -/
def interrogate_client_and_analyze (response task : String) : Json :=
  match json_loads (String.mk (cleanResponse response.toList)) with
  | some v => v
  | none => poFallback task

/-- The parse step of `StaffEngineerAgent.question_and_architect`, same
clean-and-parse shape with its own fallback dictionary. -/
def question_and_architect (response stack : String) : Json :=
  match json_loads (String.mk (cleanResponse response.toList)) with
  | some v => v
  | none => seFallback stack

/-- C8: whenever the cleaned model reply fails to parse as JSON (in
particular, a fenced reply whose body is not JSON), both consuming parse
steps return their fixed hardcoded fallback structure, a function of the task
or stack alone — so repeated calls with the same input agree — and, being
total, never raise to their caller. -/
theorem parse_fallback_c8 (r task stack : String)
    (h : json_loads (String.mk (cleanResponse r.toList)) = none) :
    interrogate_client_and_analyze r task = poFallback task ∧
    question_and_architect r stack = seFallback stack := by
  constructor
  · rw [interrogate_client_and_analyze, h]
  · rw [question_and_architect, h]

theorem parse_fallback_c8_witness :
    json_loads (String.mk (cleanResponse ("x").toList)) = none ∧
    (interrogate_client_and_analyze "x" "todo app" = poFallback "todo app" ∧
     question_and_architect "x" "Python" = seFallback "Python") := by
  have hclean : cleanResponse ("x").toList = ['x'] := rfl
  have hp : parseVal 2 ['x'] = none := by
    rw [parseVal.eq_def]
    simp only []
    rw [show skipWs ['x'] = ['x'] from rfl]
    simp only [Char.reduceEq, reduceIte]
    rw [show ('x').isDigit = false from rfl]
    simp only [Bool.false_eq_true, if_false]
  have h : json_loads (String.mk (cleanResponse ("x").toList)) = none := by
    rw [hclean]
    rw [json_loads]
    rw [show (String.mk ['x']).length + 1 = 2 from rfl,
      show (String.mk ['x']).toList = ['x'] from rfl, hp]
  exact ⟨h, parse_fallback_c8 "x" "todo app" "Python" h⟩

end AgentsLearning
